import Mathlib

/-!
Verification development for the fund crawler (`cmd/fund_crawler/main.go`).

Go strings are modelled as `List Char`; fallible code returns `Option` or
`Except` (a `none` models a runtime panic where noted).  The remote HTTP
transport and the influx write sink are opaque collaborators: their outcomes
are passed in as parameters, and the batch a function would write is returned
as a value, so that "performs no write" is expressible as returning an error.
-/

/-! ## Go string primitives -/

/-- Worker for `strings.Split` with a non-empty separator `a :: sep`.
`skip` counts separator characters still to be consumed silently after a
match; at `skip = 0` a leftmost separator occurrence ends the current group. -/
def goSplitGo (a : Char) (sep : List Char) : Nat → List Char → List (List Char)
  | _ + 1, [] => [[]]
  | skip + 1, _ :: rest => goSplitGo a sep skip rest
  | 0, [] => [[]]
  | 0, c :: rest =>
    if (a :: sep).isPrefixOf (c :: rest) then
      [] :: goSplitGo a sep sep.length rest
    else
      match goSplitGo a sep 0 rest with
      | [] => [[c]]
      | hd :: tl => (c :: hd) :: tl

/-- `strings.Split(s, a :: sep)` for a non-empty separator: split on every
occurrence of the separator, leftmost-first.  The separator is passed as a
head character plus tail so that it is non-empty by construction. -/
def goSplit (a : Char) (sep : List Char) (s : List Char) : List (List Char) :=
  goSplitGo a sep 0 s

/-- `strings.Trim(s, cutset)`: drop characters of `cut` from both ends. -/
def goTrim (cut : List Char) (s : List Char) : List Char :=
  ((s.dropWhile (· ∈ cut)).reverse.dropWhile (· ∈ cut)).reverse

/-- The character class trimmed by `strings.TrimSpace` (the ASCII/Latin-1
portion of Unicode white space, which covers the payloads in scope). -/
def goIsSpace (c : Char) : Bool :=
  c = ' ' ∨ c = '\t' ∨ c = '\n' ∨ c = '\x0b' ∨ c = '\x0c' ∨ c = '\r' ∨
    c = '\x85' ∨ c = '\xa0'

/-- `strings.TrimSpace`. -/
def goTrimSpace (s : List Char) : List Char :=
  ((s.dropWhile goIsSpace).reverse.dropWhile goIsSpace).reverse

/-- `s[strings.Index(s, "=")+1:]`: everything after the first `=`; when there
is no `=`, `strings.Index` returns `-1` and the slice `s[0:]` is `s` itself. -/
def afterFirstEq (s : List Char) : List Char :=
  match s.dropWhile (· ≠ '=') with
  | [] => s
  | _ :: rest => rest

/-! ## Catalog parser (`getNodeList`) -/

/-- `FundNode` (main.go): one instrument of the catalog. -/
structure FundNode where
  Code : String
  Abridge : String
  Name : String
  «Type» : String
  Pinyin : String
deriving DecidableEq, Repr

/-- The Go zero value of `FundNode`, as left in a `make`-allocated slice slot
that the loop never assigns. -/
def zeroFundNode : FundNode := ⟨"", "", "", "", ""⟩

/-- The cutset `"\"[]"` used by `strings.Trim` on every tuple field. -/
def nodeCut : List Char := ['"', '[', ']']

/-- One iteration body of the `getNodeList` loop: split the raw tuple on the
literal `","` separator; exactly 5 segments yield a `FundNode`, anything else
is skipped (`continue`), modelled as `none`. -/
def parseNode (l : List Char) : Option FundNode :=
  if (goSplit '"' [',', '"'] l).length = 5 then
    some ⟨(goTrim nodeCut ((goSplit '"' [',', '"'] l).getD 0 [])).asString,
          (goTrim nodeCut ((goSplit '"' [',', '"'] l).getD 1 [])).asString,
          (goTrim nodeCut ((goSplit '"' [',', '"'] l).getD 2 [])).asString,
          (goTrim nodeCut ((goSplit '"' [',', '"'] l).getD 3 [])).asString,
          (goTrim nodeCut ((goSplit '"' [',', '"'] l).getD 4 [])).asString⟩
  else none

/-- Steps of `getNodeList` between reading the body and the split: take the
text after the first `=`, trim space, then slice `s[1:len(s)-3]`.  The Go
slice expression panics (index out of range) whenever the trimmed text is
shorter than 4 characters; the panic is modelled as `none`. -/
def extractListStr (body : List Char) : Option (List Char) :=
  let s := goTrimSpace (afterFirstEq body)
  if s.length < 4 then none
  else some ((s.drop 1).take (s.length - 4))

/-- `getNodeList` (main.go), body given as input (the HTTP fetch is the
opaque transport).  `nodeList := make([]FundNode, len(lists))` pre-allocates
one zero `FundNode` per raw tuple and the loop assigns `nodeList[i]` only for
tuples that split into exactly 5 segments, so an unparsed tuple leaves the
zero value in place: the result is a `map` with `zeroFundNode` as default. -/
def getNodeList (body : List Char) : Option (List FundNode) :=
  (extractListStr body).map fun s =>
    (goSplit ']' [','] s).map fun l => (parseNode l).getD zeroFundNode

/-- The well-formed two-tuple catalog payload of the specification. -/
def c2Body : List Char :=
  ("var r = [[\"001\",\"A\",\"Alpha\",\"T1\",\"a\"],[\"002\",\"B\",\"Beta\",\"T2\",\"b\"]];").toList

/-- A three-tuple catalog payload whose middle tuple has 4 fields instead
of 5 (the other two tuples are well-formed). -/
def c1Body : List Char :=
  ("var r = [[\"001\",\"A\",\"Alpha\",\"T1\",\"a\"],[\"002\",\"B\",\"Beta\",\"T2\"],[\"003\",\"C\",\"Gamma\",\"T3\",\"c\"]];").toList

/-- The list text `getNodeList` extracts from `c1Body` before splitting. -/
def c1ListStr : List Char :=
  ("[\"001\",\"A\",\"Alpha\",\"T1\",\"a\"],[\"002\",\"B\",\"Beta\",\"T2\"],[\"003\",\"C\",\"Gamma\",\"T3\",\"c\"").toList

/-! ## History data model (`FundDetail`, `FundDetails`, `FundInfo`) -/

/-- `FundDetail` (main.go): one day's raw record, all fields strings. -/
structure FundDetail where
  FSRQ : String
  DWJZ : String
  LJJZ : String
  SDATE : String
  ACTUALSYI : String
  NAVTYPE : String
  JZZZL : String
  SGZT : String
  SHZT : String
  FHFCZ : String
  FHFCBZ : String
  DTYPE : String
  FHSP : String
deriving DecidableEq, Repr

/-- Go zero value of `FundDetail`. -/
def zeroFundDetail : FundDetail :=
  ⟨"", "", "", "", "", "", "", "", "", "", "", "", ""⟩

/-- `FundDetails` (main.go).  `isNewType` is unexported in Go, so
`encoding/json` never assigns it. -/
structure FundDetails where
  LSJZList : List FundDetail
  FundType : String
  SYType : String
  isNewType : Bool
  Feature : String
deriving DecidableEq, Repr

/-- Go zero value of `FundDetails`. -/
def zeroFundDetails : FundDetails := ⟨[], "", "", false, ""⟩

/-- `FundInfo` (main.go): the history response envelope. -/
structure FundInfo where
  Data : FundDetails
  ErrCode : Int
  ErrMsg : String
  TotalCount : Int
  Expansion : String
  PageSize : Int
  PageIndex : Int
deriving DecidableEq, Repr

/-- Go zero value of `FundInfo`. -/
def zeroFundInfo : FundInfo := ⟨zeroFundDetails, 0, "", 0, "", 0, 0⟩

/-! ## `strconv.ParseFloat` (success predicate)

`strconv.ParseFloat(s, 64)` succeeds exactly on Go floating-point literal
syntax: an optional sign followed by a decimal or hexadecimal mantissa and
exponent, with well-placed underscore digit separators, or a signed
infinity / `nan` special.  Only acceptance is modelled (the crawler tests
`err == nil`); the numeric value is irrelevant to every claim, and the
`ErrRange` failure on magnitudes overflowing float64 is not modelled. -/

/-- ASCII lower-casing as used by `strconv`'s case-insensitive compares. -/
def lowerAscii (c : Char) : Char :=
  if 'A' ≤ c ∧ c ≤ 'Z' then Char.ofNat (c.toNat + 32) else c

/-- Hexadecimal digit test. -/
def isHexDigitCh (c : Char) : Bool :=
  c.isDigit ∨ ('a' ≤ lowerAscii c ∧ lowerAscii c ≤ 'f')

/-- Drop one leading `+`/`-`. -/
def dropFloatSign : List Char → List Char
  | c :: r => if c = '+' ∨ c = '-' then r else c :: r
  | [] => []

/-- The `inf`/`infinity`/`nan` specials accepted by `strconv.ParseFloat`
(case-insensitive; a sign is allowed on the infinities only). -/
def goFloatSpecial (cs : List Char) : Bool :=
  let l := cs.map lowerAscii
  l = "inf".toList ∨ l = "+inf".toList ∨ l = "-inf".toList ∨
    l = "infinity".toList ∨ l = "+infinity".toList ∨ l = "-infinity".toList ∨
    l = "nan".toList

/-- State of `strconv`'s underscore validation: what the previous relevant
character was. -/
inductive USaw where
  | start
  | dig
  | und
  | other
deriving DecidableEq, Repr

/-- Core of `strconv`'s `underscoreOK`: every `_` must be both preceded and
followed by a digit (hex digits in hex mode). -/
def uLoop (hex : Bool) : USaw → List Char → Bool
  | .und, [] => false
  | _, [] => true
  | saw, c :: r =>
    if c = '_' then
      match saw with
      | .dig => uLoop hex .und r
      | _ => false
    else if (if hex then isHexDigitCh c else c.isDigit) then uLoop hex .dig r
    else
      match saw with
      | .und => false
      | _ => uLoop hex .other r

/-- `strconv.underscoreOK`: sign skipped, a `0x`/`0X` prefix switches to hex
digits and itself counts as a digit before a `_`. -/
def underscoreOK (cs : List Char) : Bool :=
  match dropFloatSign cs with
  | '0' :: x :: r =>
    if lowerAscii x = 'x' then uLoop true USaw.dig r
    else uLoop false USaw.start ('0' :: x :: r)
  | s => uLoop false USaw.start s

/-- Mantissa shape: at most one `.` and at least one digit. -/
def mantShapeOk (hex : Bool) (mant : List Char) : Bool :=
  decide (mant.count '.' ≤ 1) &&
    mant.any (fun c => if hex then isHexDigitCh c else c.isDigit)

/-- Exponent shape (after the `e`/`p` letter): optional sign then at least
one decimal digit, underscores permitted among the digits. -/
def expPartOk (cs : List Char) : Bool :=
  let r := dropFloatSign cs
  !r.isEmpty && r.all (fun c => c.isDigit ∨ c = '_') && r.any Char.isDigit

/-- Decimal float grammar: mantissa of digits/dot/underscores then an
optional `e`-exponent, consuming the whole string. -/
def decGrammar (s : List Char) : Bool :=
  mantShapeOk false (s.takeWhile (fun c => c.isDigit ∨ c = '.' ∨ c = '_')) &&
    (match s.dropWhile (fun c => c.isDigit ∨ c = '.' ∨ c = '_') with
     | [] => true
     | e :: r2 => decide (lowerAscii e = 'e') && expPartOk r2)

/-- Full `ParseFloat` literal grammar after the optional sign: hexadecimal
mantissa with a mandatory `p`-exponent, or the decimal grammar. -/
def goFloatGrammarOk (cs : List Char) : Bool :=
  match dropFloatSign cs with
  | '0' :: x :: r =>
    if lowerAscii x = 'x' then
      mantShapeOk true (r.takeWhile (fun c => isHexDigitCh c ∨ c = '.' ∨ c = '_')) &&
        (match r.dropWhile (fun c => isHexDigitCh c ∨ c = '.' ∨ c = '_') with
         | p :: r2 => decide (lowerAscii p = 'p') && expPartOk r2
         | [] => false)
    else decGrammar ('0' :: x :: r)
  | s => decGrammar s

/-- `strconv.ParseFloat(s, 64)` success (`err == nil`), range errors aside. -/
def goParseFloatOk (s : String) : Bool :=
  goFloatSpecial s.toList || (goFloatGrammarOk s.toList && underscoreOK s.toList)

/-! ## Date parsing (`dateparse.ParseLocal`) -/

/-- A calendar timestamp as produced by the date parser (the local-timezone
resolution plays no role in any claim). -/
structure GoDate where
  year : Nat
  month : Nat
  day : Nat
deriving DecidableEq, Repr

/-- Model of the third-party lenient date parser `dateparse.ParseLocal`
(github.com/araddon/dateparse, an external dependency, not repository
code): modelled as accepting the ISO `YYYY-MM-DD` form that the history
API emits for `FSRQ`, and rejecting other strings.  Every claim involving
dates is conditional only on parse success or failure, so the exact set of
other accepted formats is not load-bearing. -/
def parseLocal (s : String) : Option GoDate :=
  match s.toList with
  | [y1, y2, y3, y4, '-', m1, m2, '-', d1, d2] =>
    if y1.isDigit ∧ y2.isDigit ∧ y3.isDigit ∧ y4.isDigit ∧
        m1.isDigit ∧ m2.isDigit ∧ d1.isDigit ∧ d2.isDigit then
      let y := ((y1.toNat - 48) * 10 + (y2.toNat - 48)) * 100 +
        (y3.toNat - 48) * 10 + (y4.toNat - 48)
      let m := (m1.toNat - 48) * 10 + (m2.toNat - 48)
      let d := (d1.toNat - 48) * 10 + (d2.toNat - 48)
      if 1 ≤ m ∧ m ≤ 12 ∧ 1 ≤ d ∧ d ≤ 31 then some ⟨y, m, d⟩ else none
    else none
  | _ => none

/-! ## Point building and the sink (`sink`) -/

/-- One field value of a measurement point.  The crawler stores the three
status strings as-is and each NAV number as a float64; the float is
represented here by its source string — only its presence in the field set
matters to the claims. -/
inductive FieldVal where
  | s (v : String)
  | f (src : String)
deriving DecidableEq, Repr

/-- The tag set built in `sink` from the instrument's record (the Go
`map[string]string` literal is modelled as an association list in the
source's key order). -/
def nodeTags (node : FundNode) : List (String × String) :=
  [("code", node.Code), ("abridge", node.Abridge), ("name", node.Name),
   ("type", node.«Type»), ("pinyin", node.Pinyin)]

/-- The field set built in `sink` for one record: the three pass-through
strings always, each numeric field only when `strconv.ParseFloat`
succeeds on its source string. -/
def buildFields (fund : FundDetail) : List (String × FieldVal) :=
  [("NAVTYPE", FieldVal.s fund.NAVTYPE), ("SGZT", FieldVal.s fund.SGZT),
   ("SHZT", FieldVal.s fund.SHZT)]
    ++ (if goParseFloatOk fund.DWJZ then [("DWJZ", FieldVal.f fund.DWJZ)] else [])
    ++ (if goParseFloatOk fund.LJJZ then [("LJJZ", FieldVal.f fund.LJJZ)] else [])
    ++ (if goParseFloatOk fund.JZZZL then [("JZZZL", FieldVal.f fund.JZZZL)] else [])

/-- A point as handed to `client.NewPoint("fund", tags, fields, ptime)`.
`client.NewPoint` is part of the opaque sink client and is modelled as
always succeeding for these field sets. -/
structure MeasurementPoint where
  measurement : String
  tags : List (String × String)
  fields : List (String × FieldVal)
  time : GoDate
deriving DecidableEq, Repr

/-- The record loop of `sink`: each record's date is parsed with
`dateparse.ParseLocal`; a failure aborts the whole batch immediately (the
error is returned, points already built are discarded), otherwise one point
per record is appended in order. -/
def buildBatch (tags : List (String × String)) :
    List FundDetail → Except String (List MeasurementPoint)
  | [] => .ok []
  | fund :: rest =>
    match parseLocal fund.FSRQ with
    | none => .error fund.FSRQ
    | some ptime =>
      (buildBatch tags rest).map
        (fun pts => ⟨"fund", tags, buildFields fund, ptime⟩ :: pts)

/-- `sink` (main.go): build the tag set and the batch; `.ok pts` is the batch
handed to the single `influxClient.Write` call, `.error` means that call is
never reached (zero points written).  `client.NewBatchPoints` with database
`"fund"` and default precision never fails and is elided. -/
def sink (node : FundNode) (info : FundInfo) : Except String (List MeasurementPoint) :=
  buildBatch (nodeTags node) info.Data.LSJZList

/-- C4 witness: the record `FSRQ="2024-01-02"`, `DWJZ=""`, `LJJZ="n/a"`,
`JZZZL="0.12"`. -/
def c4Detail : FundDetail :=
  ⟨"2024-01-02", "", "n/a", "", "", "1", "0.12", "OPEN", "OPEN", "", "", "", ""⟩

/-- C5 witness: a two-record envelope whose second record's date does not
parse makes `sink` fail without reaching the write. -/
def c5Info : FundInfo :=
  { zeroFundInfo with
    Data := { zeroFundDetails with
      LSJZList := [{ zeroFundDetail with FSRQ := "2024-01-02" },
                   { zeroFundDetail with FSRQ := "not-a-date" }] } }

/-- C8 witness: a concrete two-record envelope. -/
def c8Info : FundInfo :=
  { zeroFundInfo with
    Data := { zeroFundDetails with
      LSJZList := [{ zeroFundDetail with FSRQ := "2024-01-02", DWJZ := "1.5" },
                   { zeroFundDetail with FSRQ := "2024-01-01", DWJZ := "1.4" }] } }

/-- C8 witness node. -/
def c8Node : FundNode := ⟨"001", "A", "Alpha", "T1", "a"⟩

/-! ## HTTP fetcher (`getHttpResponse`) -/

/-- Outcome of one transport attempt (`http.DefaultClient.Do`): a transport
error with its detail text, or a response with a status code and body. -/
inductive Attempt where
  | err (detail : String)
  | resp (status : Nat) (body : List Char)
deriving DecidableEq, Repr

/-- A returned HTTP response (status is always 200 on success). -/
structure HttpResp where
  status : Nat
  body : List Char
deriving DecidableEq, Repr

/-- The error `getHttpResponse` builds on a failed attempt, tagged with the
offending URL and the status or transport detail (the two `fmt.Errorf`
shapes in the retry loop). -/
inductive HttpErr where
  | transportErr (detail : String) (url : String)
  | statusErr (code : Nat) (url : String)
deriving DecidableEq, Repr

/-- Whether an attempt outcome counts as success for the retry loop:
no transport error and status exactly 200. -/
def attemptOk : Attempt → Bool
  | .err _ => false
  | .resp st _ => st = 200

/-- The error recorded for a failed attempt. -/
def errOfAttempt (u : String) : Attempt → HttpErr
  | .err d => .transportErr d u
  | .resp st _ => .statusErr st u

/-- The retry loop of `getHttpResponse`: `cnt` remaining attempts, `made`
attempts already performed, `last` the last recorded error.  The transport
is the opaque collaborator: `attempts k` is the outcome `http.DefaultClient.Do`
would produce on the `k`-th request (0-based).  Returns how many attempts
were performed together with the result. -/
def httpLoop (u : String) (attempts : Nat → Attempt) :
    Nat → Nat → Option HttpErr → Nat × Except HttpErr HttpResp
  | 0, made, last => (made, .error (last.getD (.transportErr "" u)))
  | cnt + 1, made, _last =>
    match attempts made with
    | .err d => httpLoop u attempts cnt (made + 1) (some (.transportErr d u))
    | .resp st body =>
      if st = 200 then (made + 1, .ok ⟨st, body⟩)
      else httpLoop u attempts cnt (made + 1) (some (.statusErr st u))

/-- `getHttpResponse` (main.go): up to `cnt = 3` attempts, immediate retry,
return on the first 200 response, otherwise the last error.  The
`url.Parse` step never fails for the two fixed URL shapes the crawler uses
and is elided. -/
def getHttpResponse (u : String) (attempts : Nat → Attempt) :
    Nat × Except HttpErr HttpResp :=
  httpLoop u attempts 3 0 none

/-! ## Pipeline driver (`run`) -/

/-- The error, if any, of an `Except` outcome (what `run` logs). -/
def exceptErrOf {ε α : Type} : Except ε α → Option ε
  | .error e => some e
  | .ok _ => none

/-- The instrument loop of `run` (main.go): call `getFund` on each node in
order; an error is logged together with the node's identity and the loop
continues; the unconditional 1-second sleep is timing only.  The result is
the log: one entry per instrument with the error its `getFund` produced,
if any. -/
def runLoop {ε : Type} (gf : FundNode → Except ε Unit) :
    List FundNode → List (FundNode × Option ε)
  | [] => []
  | n :: rest =>
    match gf n with
    | .error e => (n, some e) :: runLoop gf rest
    | .ok _ => (n, none) :: runLoop gf rest

/-- `run` (main.go): a catalog-discovery failure aborts the cycle with that
error; otherwise every instrument is processed and `run` returns nil. -/
def runModel {ε ε' : Type} (catalog : Except ε' (List FundNode))
    (gf : FundNode → Except ε Unit) :
    Except ε' (List (FundNode × Option ε)) :=
  match catalog with
  | .error e => .error e
  | .ok nodes => .ok (runLoop gf nodes)

/-- C9 witness nodes. -/
def c9Nodes : List FundNode := [⟨"001", "A", "Alpha", "T1", "a"⟩, ⟨"002", "B", "Beta", "T2", "b"⟩]

/-- C9 witness `getFund` outcome: the first instrument fails, the second
succeeds. -/
def c9Gf (n : FundNode) : Except String Unit :=
  if n.Code = "001" then .error "boom" else .ok ()

/-! ## JSON values and the `encoding/json` stream decoder

`parseFund` cuts the body at the first `{` and decodes one JSON value from
there with `json.NewDecoder(...).Decode(&info)`.  The decoder reads a
single value and ignores everything after it, so it is modelled as a
prefix parser returning the unconsumed remainder.  Fuel bounds the
recursion; `length + 1` always suffices since every recursive call first
consumes at least one character. -/

/-- A decoded JSON value.  Numbers keep their literal text: `encoding/json`
re-parses the literal per target field type, and no claim depends on the
numeric value itself. -/
inductive Json where
  | null
  | bool (b : Bool)
  | num (lit : String)
  | str (s : String)
  | arr (elems : List Json)
  | obj (members : List (String × Json))

/-- JSON whitespace skipping (the scanner's space set is exactly space,
tab, newline, carriage return). -/
def skipWs (cs : List Char) : List Char :=
  cs.dropWhile Char.isWhitespace

/-- One-character escapes of JSON strings. -/
def escChar : Char → Option Char
  | '"' => some '"'
  | '\\' => some '\\'
  | '/' => some '/'
  | 'b' => some '\x08'
  | 'f' => some '\x0c'
  | 'n' => some '\n'
  | 'r' => some '\r'
  | 't' => some '\t'
  | _ => none

/-- Value of one hexadecimal digit. -/
def hexVal (c : Char) : Option Nat :=
  if c.isDigit then some (c.toNat - 48)
  else if 'a' ≤ c ∧ c ≤ 'f' then some (c.toNat - 87)
  else if 'A' ≤ c ∧ c ≤ 'F' then some (c.toNat - 55)
  else none

/-- Value of a `\uXXXX` escape's four hex digits. -/
def hex4 (a b c d : Char) : Option Nat :=
  match hexVal a, hexVal b, hexVal c, hexVal d with
  | some x, some y, some z, some w => some (((x * 16 + y) * 16 + z) * 16 + w)
  | _, _, _, _ => none

/-- JSON string body parser, after the opening quote: plain characters up
to the closing quote, one-character escapes, and `\uXXXX` escapes (valid
hex required; a surrogate half becomes U+FFFD).  Go additionally combines
an adjacent high+low surrogate escape pair into the one code point they
denote; the pair is modelled as two replacement characters instead — this
changes only the decoded text of such exotic strings, never whether a body
parses, and no claim depends on those characters.  Raw control characters
below 0x20 are rejected. -/
def parseStrAux : Nat → List Char → Option (List Char × List Char)
  | 0, _ => none
  | f + 1, cs =>
    match cs with
    | [] => none
    | c :: r =>
      if c = '"' then some ([], r)
      else if c = '\\' then
        match r with
        | [] => none
        | e :: r2 =>
          if e = 'u' then
            match r2 with
            | h1 :: h2 :: h3 :: h4 :: r3 =>
              match hex4 h1 h2 h3 h4 with
              | none => none
              | some n =>
                (parseStrAux f r3).map (fun p =>
                  ((if n < 0xd800 ∨ 0xe000 ≤ n then Char.ofNat n else '�') :: p.1, p.2))
            | _ => none
          else
            match escChar e with
            | none => none
            | some ec => (parseStrAux f r2).map (fun p => (ec :: p.1, p.2))
      else if c.toNat < 32 then none
      else (parseStrAux f r).map (fun p => (c :: p.1, p.2))

/-- Exact-literal matcher for `true` / `false` / `null` tails. -/
def expectLit : List Char → List Char → Option (List Char)
  | [], r => some r
  | c :: lit, d :: r => if c = d then expectLit lit r else none
  | _ :: _, [] => none

/-- Exponent part of a JSON number, after the mantissa: an optional
`e`/`E` exponent with optional sign and at least one digit; the number
token otherwise ends here (greedily). -/
def parseExpPart (acc : List Char) : List Char → Option (Json × List Char)
  | [] => some (.num acc.asString, [])
  | e :: r2 =>
    if e = 'e' ∨ e = 'E' then
      match r2 with
      | [] => none
      | s :: r3 =>
        if s = '+' ∨ s = '-' then
          if (r3.takeWhile Char.isDigit).isEmpty then none
          else some (.num (acc ++ [e, s] ++ r3.takeWhile Char.isDigit).asString,
            r3.dropWhile Char.isDigit)
        else
          if ((s :: r3).takeWhile Char.isDigit).isEmpty then none
          else some (.num (acc ++ e :: (s :: r3).takeWhile Char.isDigit).asString,
            (s :: r3).dropWhile Char.isDigit)
    else some (.num acc.asString, e :: r2)

/-- Optional fraction part: a `.` must be followed by at least one digit. -/
def parseFracPart (acc : List Char) (r : List Char) : Option (Json × List Char) :=
  match r with
  | [] => parseExpPart acc []
  | c :: r2 =>
    if c = '.' then
      if (r2.takeWhile Char.isDigit).isEmpty then none
      else parseExpPart (acc ++ '.' :: r2.takeWhile Char.isDigit) (r2.dropWhile Char.isDigit)
    else parseExpPart acc (c :: r2)

/-- JSON number token: optional minus, integer part without superfluous
leading zero, fraction, exponent. -/
def parseNum (cs : List Char) : Option (Json × List Char) :=
  match cs with
  | [] => none
  | c :: r =>
    if c = '-' then
      match r with
      | [] => none
      | d :: r2 =>
        if d = '0' then parseFracPart ['-', '0'] r2
        else if d.isDigit then
          parseFracPart ('-' :: (d :: r2).takeWhile Char.isDigit)
            ((d :: r2).dropWhile Char.isDigit)
        else none
    else if c = '0' then parseFracPart ['0'] r
    else if c.isDigit then
      parseFracPart ((c :: r).takeWhile Char.isDigit) ((c :: r).dropWhile Char.isDigit)
    else none

mutual

/-- One JSON value: skip whitespace, then dispatch on the first character
(as Go's scanner does); the remainder after the value is returned. -/
def parseVal : Nat → List Char → Option (Json × List Char)
  | 0, _ => none
  | f + 1, cs =>
    match skipWs cs with
    | [] => none
    | c :: r =>
      if c = '\x7b' then
        match skipWs r with
        | [] => none
        | d :: r2 =>
          if d = '\x7d' then some (.obj [], r2)
          else (parseMembers f (d :: r2)).map (fun p => (Json.obj p.1, p.2))
      else if c = '[' then
        match skipWs r with
        | [] => none
        | d :: r2 =>
          if d = ']' then some (.arr [], r2)
          else (parseElems f (d :: r2)).map (fun p => (Json.arr p.1, p.2))
      else if c = '"' then (parseStrAux f r).map (fun p => (Json.str p.1.asString, p.2))
      else if c = 't' then (expectLit ['r', 'u', 'e'] r).map (fun r2 => (Json.bool true, r2))
      else if c = 'f' then (expectLit ['a', 'l', 's', 'e'] r).map (fun r2 => (Json.bool false, r2))
      else if c = 'n' then (expectLit ['u', 'l', 'l'] r).map (fun r2 => (Json.null, r2))
      else if c = '-' ∨ c.isDigit then parseNum (c :: r)
      else none

/-- Object members, entered at the (whitespace-skipped) position of a key:
`"key" : value` then `,` for another member or `}` to close (no trailing
comma). -/
def parseMembers : Nat → List Char → Option (List (String × Json) × List Char)
  | 0, _ => none
  | f + 1, cs =>
    match cs with
    | [] => none
    | c :: r =>
      if c = '"' then
        match parseStrAux f r with
        | none => none
        | some (key, r1) =>
          match skipWs r1 with
          | [] => none
          | d :: r2 =>
            if d = ':' then
              match parseVal f r2 with
              | none => none
              | some (v, r3) =>
                match skipWs r3 with
                | [] => none
                | e :: r4 =>
                  if e = ',' then
                    (parseMembers f (skipWs r4)).map
                      (fun p => ((key.asString, v) :: p.1, p.2))
                  else if e = '\x7d' then some ([(key.asString, v)], r4)
                  else none
            else none
      else none

/-- Array elements: a value then `,` for another element or `]` to close
(no trailing comma). -/
def parseElems : Nat → List Char → Option (List Json × List Char)
  | 0, _ => none
  | f + 1, cs =>
    match parseVal f cs with
    | none => none
    | some (v, r) =>
      match skipWs r with
      | [] => none
      | c :: r2 =>
        if c = ',' then (parseElems f r2).map (fun p => (v :: p.1, p.2))
        else if c = ']' then some ([v], r2)
        else none

end

/-! ## Decoding a JSON value into the Go structs

`encoding/json` matches object keys to exported struct fields
case-insensitively (none of the field names collide after ASCII
lower-casing, so exact-first matching coincides with lower-cased
matching); unknown keys are skipped; `null` leaves the current value;
later duplicate keys overwrite earlier ones; a type mismatch is a decode
error.  A number decodes into an `int` field via `strconv.ParseInt`, which
accepts only an optionally-signed run of decimal digits — the unbounded
`Int` stands in for `int64`, overflow aside. -/

/-- ASCII lower-casing of a key for field matching. -/
def toLowerStr (s : String) : String := (s.toList.map lowerAscii).asString

/-- Digits to a natural number. -/
def natOfDigits (ds : List Char) : Nat :=
  ds.foldl (fun acc c => acc * 10 + (c.toNat - 48)) 0

/-- `strconv.ParseInt(lit, 10, 64)` on a JSON number literal: an optional
minus then decimal digits only (a fraction or exponent makes it fail). -/
def intOfLit (lit : String) : Option Int :=
  match lit.toList with
  | '-' :: ds =>
    if ds ≠ [] ∧ ds.all Char.isDigit then some (-(Int.ofNat (natOfDigits ds)))
    else none
  | ds =>
    if ds ≠ [] ∧ ds.all Char.isDigit then some (Int.ofNat (natOfDigits ds))
    else none

/-- Decode a JSON value into an `int` field holding `cur`. -/
def decInt (v : Json) (cur : Int) : Option Int :=
  match v with
  | .num lit => intOfLit lit
  | .null => some cur
  | _ => none

/-- Decode a JSON value into a `string` field holding `cur`. -/
def decString (v : Json) (cur : String) : Option String :=
  match v with
  | .str s => some s
  | .null => some cur
  | _ => none

/-- One key/value of an object decoded into a `FundDetail` (all fields are
strings; an unknown key is skipped). -/
def decFundDetailStep (d : FundDetail) (kv : String × Json) : Option FundDetail :=
  match toLowerStr kv.1 with
  | "fsrq" => (decString kv.2 d.FSRQ).map (fun x => { d with FSRQ := x })
  | "dwjz" => (decString kv.2 d.DWJZ).map (fun x => { d with DWJZ := x })
  | "ljjz" => (decString kv.2 d.LJJZ).map (fun x => { d with LJJZ := x })
  | "sdate" => (decString kv.2 d.SDATE).map (fun x => { d with SDATE := x })
  | "actualsyi" => (decString kv.2 d.ACTUALSYI).map (fun x => { d with ACTUALSYI := x })
  | "navtype" => (decString kv.2 d.NAVTYPE).map (fun x => { d with NAVTYPE := x })
  | "jzzzl" => (decString kv.2 d.JZZZL).map (fun x => { d with JZZZL := x })
  | "sgzt" => (decString kv.2 d.SGZT).map (fun x => { d with SGZT := x })
  | "shzt" => (decString kv.2 d.SHZT).map (fun x => { d with SHZT := x })
  | "fhfcz" => (decString kv.2 d.FHFCZ).map (fun x => { d with FHFCZ := x })
  | "fhfcbz" => (decString kv.2 d.FHFCBZ).map (fun x => { d with FHFCBZ := x })
  | "dtype" => (decString kv.2 d.DTYPE).map (fun x => { d with DTYPE := x })
  | "fhsp" => (decString kv.2 d.FHSP).map (fun x => { d with FHSP := x })
  | _ => some d

/-- One element of `LSJZList`: an object decoded into a fresh zero
`FundDetail`, `null` leaving the zero value. -/
def decFundDetailElem (v : Json) : Option FundDetail :=
  match v with
  | .obj kvs => kvs.foldlM decFundDetailStep zeroFundDetail
  | .null => some zeroFundDetail
  | _ => none

/-- Decode a JSON value into the `[]FundDetail` slice field. -/
def decLSJZList (v : Json) (cur : List FundDetail) : Option (List FundDetail) :=
  match v with
  | .arr xs => xs.mapM decFundDetailElem
  | .null => some cur
  | _ => none

/-- One key/value of an object decoded into `FundDetails`.  The unexported
`isNewType` has no JSON name, so every spelling of it is an unknown key. -/
def decFundDetailsStep (d : FundDetails) (kv : String × Json) : Option FundDetails :=
  match toLowerStr kv.1 with
  | "lsjzlist" => (decLSJZList kv.2 d.LSJZList).map (fun x => { d with LSJZList := x })
  | "fundtype" => (decString kv.2 d.FundType).map (fun x => { d with FundType := x })
  | "sytype" => (decString kv.2 d.SYType).map (fun x => { d with SYType := x })
  | "feature" => (decString kv.2 d.Feature).map (fun x => { d with Feature := x })
  | _ => some d

/-- Decode a JSON value into the `Data` struct field holding `cur`. -/
def decFundDetails (v : Json) (cur : FundDetails) : Option FundDetails :=
  match v with
  | .obj kvs => kvs.foldlM decFundDetailsStep cur
  | .null => some cur
  | _ => none

/-- One key/value of the top-level object decoded into `FundInfo`. -/
def decFundInfoStep (fi : FundInfo) (kv : String × Json) : Option FundInfo :=
  match toLowerStr kv.1 with
  | "data" => (decFundDetails kv.2 fi.Data).map (fun x => { fi with Data := x })
  | "errcode" => (decInt kv.2 fi.ErrCode).map (fun x => { fi with ErrCode := x })
  | "errmsg" => (decString kv.2 fi.ErrMsg).map (fun x => { fi with ErrMsg := x })
  | "totalcount" => (decInt kv.2 fi.TotalCount).map (fun x => { fi with TotalCount := x })
  | "expansion" => (decString kv.2 fi.Expansion).map (fun x => { fi with Expansion := x })
  | "pagesize" => (decInt kv.2 fi.PageSize).map (fun x => { fi with PageSize := x })
  | "pageindex" => (decInt kv.2 fi.PageIndex).map (fun x => { fi with PageIndex := x })
  | _ => some fi

/-- Decode the parsed JSON value into `FundInfo` (`Decode(&info)` on a
pointer to a zero struct: an object fills fields, `null` leaves the zero
value, anything else is a type error). -/
def jsonToFundInfo (v : Json) : Option FundInfo :=
  match v with
  | .obj kvs => kvs.foldlM decFundInfoStep zeroFundInfo
  | .null => some zeroFundInfo
  | _ => none

/-- The two error shapes of `parseFund`: its own `invalid response body`
error when the body has no `{`, and any error of `dec.Decode` (syntax or
type mismatch). -/
inductive ParseErr where
  | invalidResponseBody
  | jsonError
deriving DecidableEq, Repr

/-- `dec.Decode(&info)` on the data starting at the first `{`: parse one
JSON value (trailing bytes ignored), then decode it into the struct. -/
def decodeFundInfo (data : List Char) : Except ParseErr FundInfo :=
  match parseVal (data.length + 1) data with
  | none => .error .jsonError
  | some (v, _) =>
    match jsonToFundInfo v with
    | none => .error .jsonError
    | some info => .ok info

/-- `parseFund` (main.go), body given as input: find the first `{`; none
means the `invalid response body` error; otherwise decode from there. -/
def parseFund (body : List Char) : Except ParseErr FundInfo :=
  match body.dropWhile (· ≠ '\x7b') with
  | [] => .error .invalidResponseBody
  | data => decodeFundInfo data

deriving instance DecidableEq for Except

/-- C3 witness body: the specification's callback-wrapped example. -/
def c3Body : List Char :=
  ("jQuery123(\x7b\"ErrCode\":0,\"ErrMsg\":\"\",\"TotalCount\":1,\"Data\":\x7b\"LSJZList\":[\x7b\"FSRQ\":\"2024-01-02\",\"DWJZ\":\"1.234\",\"LJJZ\":\"2.345\",\"JZZZL\":\"0.12\"\x7d]\x7d\x7d)").toList

/-- The envelope the C3 witness body decodes to. -/
def c3Info : FundInfo :=
  { zeroFundInfo with
    TotalCount := 1,
    Data := { zeroFundDetails with
      LSJZList := [{ zeroFundDetail with
        FSRQ := "2024-01-02", DWJZ := "1.234", LJJZ := "2.345", JZZZL := "0.12" }] } }

/-! ## `getFund` -/

/-- The error shapes of `getFund` (main.go): its own empty-code guard, a
transport failure, a parse failure, the API's nonzero `ErrCode` (carrying
the code, message, page index and page size of the envelope), or a sink
failure. -/
inductive GetFundErr where
  | emptyCode
  | httpErr (e : HttpErr)
  | parseErr (e : ParseErr)
  | fundInfoErr (code : Int) (msg : String) (index : Int) (size : Int)
  | sinkErr (e : String)
deriving DecidableEq, Repr

/-- `getFund` (main.go), with the transport outcome passed in: guard the
empty code, fetch, parse, reject a nonzero `ErrCode` before any write, and
otherwise sink.  The `.ok` result is the batch written by the single sink
write; every `.error` means zero sink write calls were performed. -/
def getFund (node : FundNode) (fetched : Except HttpErr (List Char)) :
    Except GetFundErr (List MeasurementPoint) :=
  if node.Code = "" then .error .emptyCode
  else
    match fetched with
    | .error e => .error (.httpErr e)
    | .ok body =>
      match parseFund body with
      | .error e => .error (.parseErr e)
      | .ok info =>
        if info.ErrCode ≠ 0 then
          .error (.fundInfoErr info.ErrCode info.ErrMsg info.PageIndex info.PageSize)
        else
          match sink node info with
          | .error e => .error (.sinkErr e)
          | .ok pts => .ok pts

/-- C6 witness body: an envelope with `ErrCode` 183. -/
def c6Body : List Char :=
  ("x(\x7b\"ErrCode\":183,\"ErrMsg\":\"boom\",\"PageIndex\":2,\"PageSize\":20\x7d)").toList

/-- The envelope the C6 witness body decodes to. -/
def c6Info : FundInfo :=
  { zeroFundInfo with ErrCode := 183, ErrMsg := "boom", PageIndex := 2, PageSize := 20 }

/-- C6 witness node. -/
def c6Node : FundNode := ⟨"001", "A", "Alpha", "T1", "a"⟩

/-! ## Lemmas and claim theorems -/

/-- C2: for the well-formed payload
`var r = [["001","A","Alpha","T1","a"],["002","B","Beta","T2","b"]];` the
catalog parser returns exactly 2 `FundNode` records whose five fields equal
the tuple fields, in source order. -/
theorem c2_getNodeList_wellformed_payload :
    getNodeList c2Body =
      some [⟨"001", "A", "Alpha", "T1", "a"⟩, ⟨"002", "B", "Beta", "T2", "b"⟩] := by
  decide

/-- C1 counterexample: on a payload with N = 3 bracketed tuples of which
exactly one (the middle) splits into 4 fields instead of 5, `getNodeList`
returns 3 records — not N-1 = 2 as the claim states.  The `continue` in the
loop skips the assignment but not the pre-allocated zero slice slot. -/
theorem c1_counterexample_malformed_tuple_not_dropped :
    (getNodeList c1Body).map List.length = some 3 ∧
      (getNodeList c1Body).map List.length ≠ some 2 := by
  constructor
  · decide
  · decide

/-- Indexing with default commutes with the per-tuple map of `getNodeList`
because an out-of-range index and the empty raw tuple both yield the zero
record. -/
theorem getD_map_parseNode : ∀ (l : List (List Char)) (i : Nat),
    (l.map (fun t => (parseNode t).getD zeroFundNode)).getD i zeroFundNode
      = (parseNode (l.getD i [])).getD zeroFundNode
  | [], _ => by simp [List.getD]; decide
  | _ :: _, 0 => by simp [List.getD]
  | _ :: ts, i + 1 => by
    simpa [List.getD] using getD_map_parseNode ts i

/-- C1 (amended): for every catalog payload whose (well-defined) extracted
list splits into tuples of which exactly the one at position `j` splits into
4 fields instead of 5 and all others into 5, `getNodeList` returns exactly
as many records as there are tuples: position `j` holds the zero-value
record (all five fields empty) and every other position holds the record
parsed from its tuple, unaffected, in source order. -/
theorem c1_amended_malformed_tuple_yields_zero_record
    (body s : List Char) (lists : List (List Char)) (j : Nat)
    (hs : extractListStr body = some s)
    (hl : goSplit ']' [','] s = lists)
    (hj : j < lists.length)
    (hbad : (goSplit '"' [',', '"'] (lists.getD j [])).length = 4)
    (hgood : ∀ i ∈ List.range lists.length, i ≠ j →
      (goSplit '"' [',', '"'] (lists.getD i [])).length = 5) :
    ∃ nodes, getNodeList body = some nodes ∧ nodes.length = lists.length ∧
      nodes.getD j zeroFundNode = zeroFundNode ∧
      ∀ i ∈ List.range lists.length, i ≠ j →
        parseNode (lists.getD i []) = some (nodes.getD i zeroFundNode) := by
  subst hl
  refine ⟨(goSplit ']' [','] s).map (fun l => (parseNode l).getD zeroFundNode),
    ?_, by simp, ?_, ?_⟩
  · simp [getNodeList, hs]
  · have hpn : parseNode ((goSplit ']' [','] s).getD j []) = none := by
      rw [parseNode, if_neg (by omega)]
    rw [getD_map_parseNode, hpn]
    rfl
  · intro i hi hne
    have h5 := hgood i hi hne
    have hsome : (parseNode ((goSplit ']' [','] s).getD i [])).isSome := by
      rw [parseNode, if_pos h5]; rfl
    obtain ⟨v, hv⟩ := Option.isSome_iff_exists.mp hsome
    rw [getD_map_parseNode, hv]
    rfl

/-- C1 amended witness: the amended statement instantiated on the concrete
three-tuple payload with the middle tuple malformed. -/
theorem c1_amended_witness :
    extractListStr c1Body = some c1ListStr ∧ 1 < (goSplit ']' [','] c1ListStr).length ∧
      ∃ nodes, getNodeList c1Body = some nodes ∧
        nodes.length = (goSplit ']' [','] c1ListStr).length ∧
        nodes.getD 1 zeroFundNode = zeroFundNode ∧
        ∀ i ∈ List.range (goSplit ']' [','] c1ListStr).length, i ≠ 1 →
          parseNode ((goSplit ']' [','] c1ListStr).getD i []) =
            some (nodes.getD i zeroFundNode) :=
  ⟨by decide, by decide,
    c1_amended_malformed_tuple_yields_zero_record c1Body c1ListStr _ 1
      (by decide) rfl (by decide) (by decide) (by decide)⟩

/-- C10: any body whose content after the first `=` (the whole body when it
has no `=`), once whitespace-trimmed, is shorter than 4 characters makes the
slice `s[1:len(s)-3]` in `getNodeList` panic with an out-of-range index
(modelled as `none`) instead of returning an error. -/
theorem c10_getNodeList_short_body_panics (body : List Char)
    (h : (goTrimSpace (afterFirstEq body)).length < 4) :
    getNodeList body = none := by
  simp [getNodeList, extractListStr, h]

/-- C10 witness: the body `x;` (no `=`, trimmed length 2 < 4) makes
`getNodeList` panic. -/
theorem c10_witness :
    (goTrimSpace (afterFirstEq ("x;").toList)).length < 4 ∧
      getNodeList ("x;").toList = none :=
  ⟨by decide, c10_getNodeList_short_body_panics _ (by decide)⟩

/-- Helper: a batch build fails exactly when it hits an unparseable date;
the membership direction used by C5. -/
theorem buildBatch_error_of_bad_date (tags : List (String × String)) :
    ∀ (l : List FundDetail) (fund : FundDetail), fund ∈ l →
      parseLocal fund.FSRQ = none → ∃ e, buildBatch tags l = .error e := by
  intro l
  induction l with
  | nil => intro fund h; cases h
  | cons hd tl ih =>
    intro fund hmem hbad
    rcases List.mem_cons.mp hmem with rfl | htl
    · exact ⟨fund.FSRQ, by rw [buildBatch, hbad]⟩
    · cases hp : parseLocal hd.FSRQ with
      | none => exact ⟨hd.FSRQ, by rw [buildBatch, hp]⟩
      | some d =>
        obtain ⟨e, he⟩ := ih fund htl hbad
        exact ⟨e, by rw [buildBatch, hp, he]; rfl⟩

/-- Helper: when every record's date parses, the batch build succeeds with
one point per record, in order, each carrying the given tags. -/
theorem buildBatch_ok_of_dates (tags : List (String × String)) :
    ∀ l : List FundDetail, (∀ fund ∈ l, (parseLocal fund.FSRQ).isSome) →
      ∃ pts, buildBatch tags l = .ok pts ∧ pts.length = l.length ∧
        ∀ (i : Nat) (fund : FundDetail), l[i]? = some fund →
          ∃ d, parseLocal fund.FSRQ = some d ∧
            pts[i]? = some ⟨"fund", tags, buildFields fund, d⟩ := by
  intro l
  induction l with
  | nil =>
    intro _
    exact ⟨[], rfl, rfl, by intro i fund h; simp at h⟩
  | cons hd tl ih =>
    intro h
    obtain ⟨d, hd'⟩ := Option.isSome_iff_exists.mp (h hd (List.mem_cons_self hd tl))
    obtain ⟨pts, hpts, hlen, hidx⟩ := ih (fun fund hm => h fund (List.mem_cons_of_mem hd hm))
    refine ⟨⟨"fund", tags, buildFields hd, d⟩ :: pts, ?_, by simp [hlen], ?_⟩
    · rw [buildBatch, hd', hpts]; rfl
    · intro i fund hi
      match i with
      | 0 =>
        simp only [List.getElem?_cons_zero, Option.some.injEq] at hi
        exact ⟨d, hi ▸ hd', by simp [hi]⟩
      | i + 1 =>
        simp only [List.getElem?_cons_succ] at hi ⊢
        exact hidx i fund hi

/-- C4: for every history record whose date parses, the built point's field
set contains the three pass-through strings, contains each numeric field
exactly when `strconv.ParseFloat` succeeds on its source string (so a
non-numeric or empty source omits just that field), and the record still
contributes exactly one point to the batch — it is never dropped and never
fails the batch. -/
theorem c4_point_fields_tolerant_numeric (fund : FundDetail) (d : GoDate)
    (hdate : parseLocal fund.FSRQ = some d) :
    (buildFields fund).lookup "NAVTYPE" = some (FieldVal.s fund.NAVTYPE) ∧
    (buildFields fund).lookup "SGZT" = some (FieldVal.s fund.SGZT) ∧
    (buildFields fund).lookup "SHZT" = some (FieldVal.s fund.SHZT) ∧
    ((buildFields fund).lookup "DWJZ" =
      if goParseFloatOk fund.DWJZ then some (FieldVal.f fund.DWJZ) else none) ∧
    ((buildFields fund).lookup "LJJZ" =
      if goParseFloatOk fund.LJJZ then some (FieldVal.f fund.LJJZ) else none) ∧
    ((buildFields fund).lookup "JZZZL" =
      if goParseFloatOk fund.JZZZL then some (FieldVal.f fund.JZZZL) else none) ∧
    ∀ tags rest, buildBatch tags (fund :: rest) =
      (buildBatch tags rest).map
        (fun pts => ⟨"fund", tags, buildFields fund, d⟩ :: pts) := by
  refine ⟨?_, ?_, ?_, ?_, ?_, ?_, ?_⟩
  · rfl
  · rfl
  · rfl
  · cases h1 : goParseFloatOk fund.DWJZ <;>
      cases h2 : goParseFloatOk fund.LJJZ <;>
        cases h3 : goParseFloatOk fund.JZZZL <;>
          simp [buildFields, h1, h2, h3, List.lookup]
  · cases h1 : goParseFloatOk fund.DWJZ <;>
      cases h2 : goParseFloatOk fund.LJJZ <;>
        cases h3 : goParseFloatOk fund.JZZZL <;>
          simp [buildFields, h1, h2, h3, List.lookup]
  · cases h1 : goParseFloatOk fund.DWJZ <;>
      cases h2 : goParseFloatOk fund.LJJZ <;>
        cases h3 : goParseFloatOk fund.JZZZL <;>
          simp [buildFields, h1, h2, h3, List.lookup]
  · intro tags rest
    rw [buildBatch, hdate]

/-- C4 witness: on the concrete record, the empty and non-numeric sources
are omitted, the parseable one is present, the strings pass through, and
the record still contributes its point. -/
theorem c4_witness :
    parseLocal c4Detail.FSRQ = some ⟨2024, 1, 2⟩ ∧
    (buildFields c4Detail).lookup "NAVTYPE" = some (FieldVal.s c4Detail.NAVTYPE) ∧
    ((buildFields c4Detail).lookup "DWJZ" =
      if goParseFloatOk c4Detail.DWJZ then some (FieldVal.f c4Detail.DWJZ) else none) ∧
    ((buildFields c4Detail).lookup "LJJZ" =
      if goParseFloatOk c4Detail.LJJZ then some (FieldVal.f c4Detail.LJJZ) else none) ∧
    ((buildFields c4Detail).lookup "JZZZL" =
      if goParseFloatOk c4Detail.JZZZL then some (FieldVal.f c4Detail.JZZZL) else none) ∧
    buildBatch [] [c4Detail] =
      (buildBatch [] []).map
        (fun pts => ⟨"fund", [], buildFields c4Detail, ⟨2024, 1, 2⟩⟩ :: pts) := by
  have h := c4_point_fields_tolerant_numeric c4Detail ⟨2024, 1, 2⟩ (by decide)
  exact ⟨by decide, h.1, h.2.2.2.1, h.2.2.2.2.1, h.2.2.2.2.2.1, h.2.2.2.2.2.2 [] []⟩

/-- C5: whenever any record of the envelope has an unparseable date, `sink`
returns an error: the single write call is never reached (zero points
written for that instrument, earlier points discarded with the batch). -/
theorem c5_bad_date_aborts_batch (node : FundNode) (info : FundInfo)
    (fund : FundDetail) (hmem : fund ∈ info.Data.LSJZList)
    (hbad : parseLocal fund.FSRQ = none) :
    (∃ e, sink node info = .error e) ∧ ∀ pts, sink node info ≠ .ok pts := by
  obtain ⟨e, he⟩ :=
    buildBatch_error_of_bad_date (nodeTags node) info.Data.LSJZList fund hmem hbad
  exact ⟨⟨e, he⟩, fun pts h => by rw [sink] at h; rw [h] at he; cases he⟩

/-- C5 witness statement: instantiation on `c5Info`. -/
theorem c5_witness :
    ({ zeroFundDetail with FSRQ := "not-a-date" } ∈ c5Info.Data.LSJZList) ∧
    parseLocal "not-a-date" = none ∧
    (∃ e, sink zeroFundNode c5Info = .error e) ∧
    ∀ pts, sink zeroFundNode c5Info ≠ .ok pts := by
  have h := c5_bad_date_aborts_batch zeroFundNode c5Info
    { zeroFundDetail with FSRQ := "not-a-date" } (by decide) (by decide)
  exact ⟨by decide, by decide, h.1, h.2⟩

/-- C8: when every record's date parses, `sink` reaches the write with a
batch of exactly one point per input record, in envelope order, and every
point carries the same 5-entry tag set taken from the instrument record. -/
theorem c8_batch_one_point_per_record (node : FundNode) (info : FundInfo)
    (h : ∀ fund ∈ info.Data.LSJZList, (parseLocal fund.FSRQ).isSome) :
    ∃ pts, sink node info = .ok pts ∧
      pts.length = info.Data.LSJZList.length ∧
      ∀ (i : Nat) (fund : FundDetail), info.Data.LSJZList[i]? = some fund →
        ∃ d, parseLocal fund.FSRQ = some d ∧
          pts[i]? = some ⟨"fund",
            [("code", node.Code), ("abridge", node.Abridge), ("name", node.Name),
             ("type", node.«Type»), ("pinyin", node.Pinyin)],
            buildFields fund, d⟩ :=
  buildBatch_ok_of_dates (nodeTags node) info.Data.LSJZList h

/-- C8 witness statement: instantiation on `c8Info` and `c8Node`. -/
theorem c8_witness :
    (∀ fund ∈ c8Info.Data.LSJZList, (parseLocal fund.FSRQ).isSome) ∧
    ∃ pts, sink c8Node c8Info = .ok pts ∧
      pts.length = c8Info.Data.LSJZList.length ∧
      ∀ (i : Nat) (fund : FundDetail), c8Info.Data.LSJZList[i]? = some fund →
        ∃ d, parseLocal fund.FSRQ = some d ∧
          pts[i]? = some ⟨"fund",
            [("code", c8Node.Code), ("abridge", c8Node.Abridge), ("name", c8Node.Name),
             ("type", c8Node.«Type»), ("pinyin", c8Node.Pinyin)],
            buildFields fund, d⟩ :=
  ⟨by decide, c8_batch_one_point_per_record c8Node c8Info (by decide)⟩

/-- The loop performs at most `cnt` further attempts. -/
theorem httpLoop_le (u : String) (a : Nat → Attempt) :
    ∀ cnt made last, (httpLoop u a cnt made last).1 ≤ made + cnt := by
  intro cnt
  induction cnt with
  | zero => intro made last; simp [httpLoop]
  | succ c ih =>
    intro made last
    rw [httpLoop]
    cases a made with
    | err d => exact (ih (made + 1) _).trans (by omega)
    | resp st body =>
      dsimp only
      split
      · simp
      · exact (ih (made + 1) _).trans (by omega)

/-- The loop returns the first 200 response immediately. -/
theorem httpLoop_success (u : String) (a : Nat → Attempt) :
    ∀ cnt k made last st body, k < cnt →
      (∀ j, j < k → attemptOk (a (made + j)) = false) →
      a (made + k) = .resp st body → st = 200 →
      httpLoop u a cnt made last = (made + k + 1, .ok ⟨st, body⟩) := by
  intro cnt
  induction cnt with
  | zero => intro k made last st body hk; exact absurd hk (Nat.not_lt_zero k)
  | succ c ih =>
    intro k made last st body hk hprev hat h200
    rw [httpLoop]
    cases k with
    | zero =>
      rw [Nat.add_zero] at hat
      rw [hat]
      dsimp only
      rw [if_pos h200]
    | succ j =>
      have h0 : attemptOk (a made) = false := by
        simpa using hprev 0 (by omega)
      cases ha : a made with
      | err d =>
        dsimp only
        have hrec := ih j (made + 1) (some (.transportErr d u)) st body (by omega)
          (fun i hi => by
            have := hprev (i + 1) (by omega)
            rwa [show made + (i + 1) = made + 1 + i from by omega] at this)
          (by rwa [show made + 1 + j = made + (j + 1) from by omega]) h200
        rw [hrec]
        rw [show made + 1 + j + 1 = made + (j + 1) + 1 from by omega]
      | resp st0 body0 =>
        rw [ha] at h0
        simp only [attemptOk, decide_eq_false_iff_not] at h0
        dsimp only
        rw [if_neg h0]
        have hrec := ih j (made + 1) (some (.statusErr st0 u)) st body (by omega)
          (fun i hi => by
            have := hprev (i + 1) (by omega)
            rwa [show made + (i + 1) = made + 1 + i from by omega] at this)
          (by rwa [show made + 1 + j = made + (j + 1) from by omega]) h200
        rw [hrec]
        rw [show made + 1 + j + 1 = made + (j + 1) + 1 from by omega]

/-- When all `cnt` attempts fail, the loop returns the last error. -/
theorem httpLoop_allfail (u : String) (a : Nat → Attempt) :
    ∀ cnt made last, 0 < cnt →
      (∀ j, j < cnt → attemptOk (a (made + j)) = false) →
      httpLoop u a cnt made last =
        (made + cnt, .error (errOfAttempt u (a (made + (cnt - 1))))) := by
  intro cnt
  induction cnt with
  | zero => intro _ _ h; exact absurd h (by omega)
  | succ c ih =>
    intro made last _ hall
    have h0 : attemptOk (a made) = false := by simpa using hall 0 (by omega)
    rw [httpLoop]
    cases ha : a made with
    | err d =>
      dsimp only
      rcases Nat.eq_zero_or_pos c with hc | hc
      · subst hc
        rw [httpLoop]
        simp [errOfAttempt, ha]
      · rw [ih (made + 1) _ hc (fun j hj => by
          have := hall (j + 1) (by omega)
          rwa [show made + (j + 1) = made + 1 + j from by omega] at this)]
        rw [show made + 1 + c = made + (c + 1) from by omega,
          show made + 1 + (c - 1) = made + (c + 1 - 1) from by omega]
    | resp st0 body0 =>
      rw [ha] at h0
      simp only [attemptOk, decide_eq_false_iff_not] at h0
      dsimp only
      rw [if_neg h0]
      rcases Nat.eq_zero_or_pos c with hc | hc
      · subst hc
        rw [httpLoop]
        simp [errOfAttempt, ha]
      · rw [ih (made + 1) _ hc (fun j hj => by
          have := hall (j + 1) (by omega)
          rwa [show made + (j + 1) = made + 1 + j from by omega] at this)]
        rw [show made + 1 + c = made + (c + 1) from by omega,
          show made + 1 + (c - 1) = made + (c + 1 - 1) from by omega]

/-- The loop result depends only on the attempts it may perform. -/
theorem httpLoop_agree (u : String) (a a' : Nat → Attempt) :
    ∀ cnt made last, (∀ j, made ≤ j → j < made + cnt → a j = a' j) →
      httpLoop u a cnt made last = httpLoop u a' cnt made last := by
  intro cnt
  induction cnt with
  | zero => intro made last _; rfl
  | succ c ih =>
    intro made last hagree
    rw [httpLoop, httpLoop, ← hagree made (Nat.le_refl made) (by omega)]
    cases ha : a made with
    | err d =>
      dsimp only
      exact ih (made + 1) _ (fun j h1 h2 => hagree j (by omega) (by omega))
    | resp st0 body0 =>
      dsimp only
      split
      · rfl
      · exact ih (made + 1) _ (fun j h1 h2 => hagree j (by omega) (by omega))

/-- C7: the fetcher performs at most 3 attempts; it returns the response of
the first attempt that succeeds with status 200 immediately; when all 3
attempts fail it returns the last error, tagged with the URL and the status
or transport detail; and the result depends only on the first 3 attempt
outcomes (no further request is made). -/
theorem c7_http_retry_bounded (u : String) (attempts : Nat → Attempt) :
    ((getHttpResponse u attempts).1 ≤ 3) ∧
    (∀ k, k < 3 → (∀ j, j < k → attemptOk (attempts j) = false) →
      ∀ st body, attempts k = .resp st body → st = 200 →
        getHttpResponse u attempts = (k + 1, .ok ⟨st, body⟩)) ∧
    ((∀ j, j < 3 → attemptOk (attempts j) = false) →
      getHttpResponse u attempts = (3, .error (errOfAttempt u (attempts 2)))) ∧
    (∀ attempts', (∀ j, j < 3 → attempts j = attempts' j) →
      getHttpResponse u attempts = getHttpResponse u attempts') := by
  refine ⟨?_, ?_, ?_, ?_⟩
  · simpa using httpLoop_le u attempts 3 0 none
  · intro k hk hprev st body hat h200
    have := httpLoop_success u attempts 3 k 0 none st body hk
      (fun j hj => by simpa using hprev j hj) (by simpa using hat) h200
    simpa [getHttpResponse] using this
  · intro hall
    have := httpLoop_allfail u attempts 3 0 none (by omega)
      (fun j hj => by simpa using hall j hj)
    simpa [getHttpResponse] using this
  · intro attempts' hagree
    exact httpLoop_agree u attempts attempts' 3 0 none
      (fun j h1 h2 => hagree j (by omega))

/-- C7 witness: an endpoint answering status 500 on every attempt yields the
terminal status error after exactly 3 attempts. -/
theorem c7_witness :
    (∀ j, j < 3 → attemptOk (Attempt.resp 500 []) = false) ∧
      getHttpResponse "http://e" (fun _ => Attempt.resp 500 []) =
        (3, .error (HttpErr.statusErr 500 "http://e")) :=
  ⟨fun _ _ => by decide,
    (c7_http_retry_bounded "http://e" (fun _ => Attempt.resp 500 [])).2.2.1
      (fun j hj => by decide)⟩

/-- The instrument loop is pointwise: each log entry depends only on that
instrument's own outcome. -/
theorem runLoop_eq_map {ε : Type} (gf : FundNode → Except ε Unit) :
    ∀ nodes, runLoop gf nodes = nodes.map (fun n => (n, exceptErrOf (gf n))) := by
  intro nodes
  induction nodes with
  | nil => rfl
  | cons n rest ih =>
    rw [runLoop]
    cases h : gf n <;> rw [List.map_cons] <;>
      simp [exceptErrOf, h, ih]

/-- C9: whenever catalog discovery succeeds, `run` returns without error;
every instrument of the list is processed, in order, and the log entry of
each instrument depends only on that instrument's own `getFund` outcome —
a failure for one instrument neither prevents processing of the others nor
fails the cycle. -/
theorem c9_instrument_failure_isolated {ε ε' : Type}
    (catalog : Except ε' (List FundNode)) (gf : FundNode → Except ε Unit)
    (nodes : List FundNode) (hcat : catalog = .ok nodes) :
    runModel catalog gf = .ok (runLoop gf nodes) ∧
    (runLoop gf nodes).length = nodes.length ∧
    ∀ (i : Nat) (n : FundNode), nodes[i]? = some n →
      (runLoop gf nodes)[i]? = some (n, exceptErrOf (gf n)) := by
  subst hcat
  refine ⟨rfl, ?_, ?_⟩
  · rw [runLoop_eq_map]; simp
  · intro i n hn
    rw [runLoop_eq_map, List.getElem?_map, hn]
    rfl

/-- C9 witness: with a successful discovery of two instruments of which the
first's `getFund` fails, the cycle still returns without error and the
second instrument is processed. -/
theorem c9_witness :
    runModel (Except.ok c9Nodes : Except String (List FundNode)) c9Gf =
      .ok (runLoop c9Gf c9Nodes) ∧
    (runLoop c9Gf c9Nodes).length = c9Nodes.length ∧
    ∀ (i : Nat) (n : FundNode), c9Nodes[i]? = some n →
      (runLoop c9Gf c9Nodes)[i]? = some (n, exceptErrOf (c9Gf n)) :=
  c9_instrument_failure_isolated (Except.ok c9Nodes : Except String (List FundNode))
    c9Gf c9Nodes rfl

/-! ## Appending unread input does not change an already-delimited parse

The decoder reads a single JSON value; these lemmas show that whatever
follows the value never affects it.  Each parse function is shown stable
under appending to its input, provided its own stopping point lies inside
the original input (for the greedy number token: a non-empty remainder). -/

/-- `dropWhile` that stops inside `l` is unchanged by appending. -/
theorem dropWhile_append_cons {p : Char → Bool} (l t : List Char) (c : Char)
    (r : List Char) (h : l.dropWhile p = c :: r) :
    (l ++ t).dropWhile p = c :: (r ++ t) := by
  rw [List.dropWhile_append, h]
  simp

/-- `takeWhile` that stops inside `l` is unchanged by appending. -/
theorem takeWhile_append_stop {p : Char → Bool} (l t : List Char) (c : Char)
    (r : List Char) (h : l.dropWhile p = c :: r) :
    (l ++ t).takeWhile p = l.takeWhile p := by
  have hlen := congrArg List.length (List.takeWhile_append_dropWhile p l)
  rw [h] at hlen
  simp only [List.length_append, List.length_cons] at hlen
  rw [List.takeWhile_append, if_neg (by omega)]

/-- Whitespace skipping that finds a character is unchanged by appending. -/
theorem skipWs_append_cons (cs t : List Char) (c : Char) (r : List Char)
    (h : skipWs cs = c :: r) : skipWs (cs ++ t) = c :: (r ++ t) := by
  unfold skipWs at h ⊢
  exact dropWhile_append_cons cs t c r h

/-- Literal matching is unchanged by appending. -/
theorem expectLit_append : ∀ (lit cs r t : List Char),
    expectLit lit cs = some r → expectLit lit (cs ++ t) = some (r ++ t)
  | [], cs, r, t, h => by
    rw [expectLit] at h
    cases h
    rfl
  | c :: lit, [], r, t, h => by
    rw [expectLit] at h
    cases h
  | c :: lit, d :: cs, r, t, h => by
    rw [expectLit] at h
    rw [List.cons_append, expectLit]
    split_ifs at h with hc
    rw [if_pos hc]
    exact expectLit_append lit cs r t h

/-- The exponent part, when it stops inside its input (non-empty
remainder), is unchanged by appending. -/
theorem parseExpPart_append (acc cs : List Char) (v : Json) (c0 : Char)
    (r t : List Char) (h : parseExpPart acc cs = some (v, c0 :: r)) :
    parseExpPart acc (cs ++ t) = some (v, c0 :: (r ++ t)) := by
  rcases cs with _ | ⟨e, r2⟩
  · rw [parseExpPart] at h
    simp at h
  · rw [parseExpPart.eq_def] at h
    rw [List.cons_append, parseExpPart.eq_def]
    dsimp only at h ⊢
    by_cases he : e = 'e' ∨ e = 'E'
    · rw [if_pos he] at h ⊢
      rcases r2 with _ | ⟨s2, r3⟩
      · cases h
      · rw [List.cons_append]
        dsimp only at h ⊢
        by_cases hs : s2 = '+' ∨ s2 = '-'
        · rw [if_pos hs] at h ⊢
          by_cases hemp : (r3.takeWhile Char.isDigit).isEmpty
          · rw [if_pos hemp] at h
            cases h
          · rw [if_neg hemp] at h
            simp only [Option.some.injEq, Prod.mk.injEq] at h
            obtain ⟨hv, hrem⟩ := h
            rw [takeWhile_append_stop r3 t c0 r hrem,
              dropWhile_append_cons r3 t c0 r hrem, if_neg hemp, hv]
        · rw [if_neg hs] at h ⊢
          by_cases hemp : ((s2 :: r3).takeWhile Char.isDigit).isEmpty
          · rw [if_pos hemp] at h
            cases h
          · rw [if_neg hemp] at h
            simp only [Option.some.injEq, Prod.mk.injEq] at h
            obtain ⟨hv, hrem⟩ := h
            rw [show s2 :: (r3 ++ t) = (s2 :: r3) ++ t from rfl,
              takeWhile_append_stop (s2 :: r3) t c0 r hrem,
              dropWhile_append_cons (s2 :: r3) t c0 r hrem, if_neg hemp, hv]
    · rw [if_neg he] at h ⊢
      simp only [Option.some.injEq, Prod.mk.injEq] at h
      obtain ⟨hv, hrem⟩ := h
      obtain ⟨rfl, rfl⟩ : c0 = e ∧ r = r2 := by
        refine ⟨?_, ?_⟩ <;> injection hrem.symm
      rw [hv]

/-- The fraction-and-exponent part, when it stops inside its input, is
unchanged by appending. -/
theorem parseFracPart_append (acc cs : List Char) (v : Json) (c0 : Char)
    (r t : List Char) (h : parseFracPart acc cs = some (v, c0 :: r)) :
    parseFracPart acc (cs ++ t) = some (v, c0 :: (r ++ t)) := by
  rcases cs with _ | ⟨c, r2⟩
  · rw [parseFracPart] at h
    rw [parseExpPart] at h
    simp at h
  · rw [parseFracPart] at h
    rw [List.cons_append, parseFracPart]
    by_cases hc : c = '.'
    · rw [if_pos hc] at h ⊢
      by_cases hemp : (r2.takeWhile Char.isDigit).isEmpty
      · rw [if_pos hemp] at h
        cases h
      · rw [if_neg hemp] at h
        rcases hrem : r2.dropWhile Char.isDigit with _ | ⟨d0, r3⟩
        · rw [hrem] at h
          rw [parseExpPart] at h
          simp at h
        · rw [hrem] at h
          rw [takeWhile_append_stop r2 t d0 r3 hrem,
            dropWhile_append_cons r2 t d0 r3 hrem, if_neg hemp]
          exact parseExpPart_append _ _ v c0 r t h
    · rw [if_neg hc] at h ⊢
      rw [← List.cons_append]
      exact parseExpPart_append acc (c :: r2) v c0 r t h

/-- The number token, when it stops inside its input, is unchanged by
appending. -/
theorem parseNum_append (cs : List Char) (v : Json) (c0 : Char)
    (r t : List Char) (h : parseNum cs = some (v, c0 :: r)) :
    parseNum (cs ++ t) = some (v, c0 :: (r ++ t)) := by
  rcases cs with _ | ⟨c, r1⟩
  · cases h
  · rw [parseNum.eq_def] at h
    rw [List.cons_append, parseNum.eq_def]
    dsimp only at h ⊢
    by_cases hm : c = '-'
    · rw [if_pos hm] at h ⊢
      rcases r1 with _ | ⟨d, r2⟩
      · cases h
      · rw [List.cons_append]
        dsimp only at h ⊢
        by_cases hd : d = '0'
        · rw [if_pos hd] at h ⊢
          exact parseFracPart_append _ _ v c0 r t h
        · rw [if_neg hd] at h ⊢
          by_cases hdig : d.isDigit
          · rw [if_pos hdig] at h ⊢
            rcases hrem : (d :: r2).dropWhile Char.isDigit with _ | ⟨e0, r3⟩
            · rw [hrem] at h
              rw [parseFracPart] at h
              rw [parseExpPart] at h
              simp at h
            · rw [hrem] at h
              rw [show d :: (r2 ++ t) = (d :: r2) ++ t from rfl,
                takeWhile_append_stop (d :: r2) t e0 r3 hrem,
                dropWhile_append_cons (d :: r2) t e0 r3 hrem]
              exact parseFracPart_append _ _ v c0 r t h
          · rw [if_neg hdig] at h
            cases h
    · rw [if_neg hm] at h ⊢
      by_cases hz : c = '0'
      · rw [if_pos hz] at h ⊢
        exact parseFracPart_append _ _ v c0 r t h
      · rw [if_neg hz] at h ⊢
        by_cases hdig : c.isDigit
        · rw [if_pos hdig] at h ⊢
          rcases hrem : (c :: r1).dropWhile Char.isDigit with _ | ⟨e0, r3⟩
          · rw [hrem] at h
            rw [parseFracPart] at h
            rw [parseExpPart] at h
            simp at h
          · rw [hrem] at h
            rw [show c :: (r1 ++ t) = (c :: r1) ++ t from rfl,
              takeWhile_append_stop (c :: r1) t e0 r3 hrem,
              dropWhile_append_cons (c :: r1) t e0 r3 hrem]
            exact parseFracPart_append _ _ v c0 r t h
        · rw [if_neg hdig] at h
          cases h

/-- Fuel exhaustion aside, the string parser fails on empty input. -/
theorem parseStrAux_nil (f : Nat) : parseStrAux f [] = none := by
  cases f <;> rw [parseStrAux.eq_def]

/-- The string parser is monotone in fuel. -/
theorem parseStrAux_mono : ∀ (f : Nat) (cs : List Char) (x : List Char × List Char),
    parseStrAux f cs = some x → parseStrAux (f + 1) cs = some x := by
  intro f
  induction f with
  | zero => intro cs x h; rw [parseStrAux] at h; cases h
  | succ f ih =>
    intro cs x h
    have hmap : ∀ (X : List Char) (g : List Char × List Char → List Char × List Char),
        (parseStrAux f X).map g = some x →
        (parseStrAux (f + 1) X).map g = some x := by
      intro X g hh
      obtain ⟨p, hp, hx⟩ := Option.map_eq_some'.mp hh
      exact Option.map_eq_some'.mpr ⟨p, ih X p hp, hx⟩
    rcases cs with _ | ⟨c, r⟩
    · rw [parseStrAux_nil] at h
      cases h
    · rw [parseStrAux.eq_def] at h
      rw [parseStrAux.eq_def]
      dsimp only at h ⊢
      by_cases hq : c = '"'
      · rw [if_pos hq] at h ⊢
        exact h
      · rw [if_neg hq] at h ⊢
        by_cases hb : c = '\\'
        · rw [if_pos hb] at h ⊢
          rcases r with _ | ⟨e, r2⟩
          · exact h
          · dsimp only at h ⊢
            by_cases hu : e = 'u'
            · rw [if_pos hu] at h ⊢
              rcases r2 with _ | ⟨h1, r2⟩
              · exact h
              rcases r2 with _ | ⟨h2, r2⟩
              · exact h
              rcases r2 with _ | ⟨h3, r2⟩
              · exact h
              rcases r2 with _ | ⟨h4, r3⟩
              · exact h
              dsimp only at h ⊢
              rcases hh4 : hex4 h1 h2 h3 h4 with _ | n
              · rw [hh4] at h
                exact h
              · rw [hh4] at h
                dsimp only at h ⊢
                exact hmap _ _ h
            · rw [if_neg hu] at h ⊢
              rcases he : escChar e with _ | ec
              · rw [he] at h
                exact h
              · rw [he] at h
                dsimp only at h ⊢
                exact hmap _ _ h
        · rw [if_neg hb] at h ⊢
          by_cases hc32 : c.toNat < 32
          · rw [if_pos hc32] at h ⊢
            exact h
          · rw [if_neg hc32] at h ⊢
            exact hmap _ _ h

/-- A parsed string is closed by its quote, so appending unread input
changes only the returned remainder. -/
theorem parseStrAux_append : ∀ (f : Nat) (cs out rem t : List Char),
    parseStrAux f cs = some (out, rem) →
    parseStrAux f (cs ++ t) = some (out, rem ++ t) := by
  intro f
  induction f with
  | zero => intro cs out rem t h; rw [parseStrAux] at h; cases h
  | succ f ih =>
    intro cs out rem t h
    have hmap : ∀ (X : List Char) (ch : Char),
        (parseStrAux f X).map (fun p => (ch :: p.1, p.2)) = some (out, rem) →
        (parseStrAux f (X ++ t)).map (fun p => (ch :: p.1, p.2)) =
          some (out, rem ++ t) := by
      intro X ch hh
      obtain ⟨⟨p1, p2⟩, hp, hx⟩ := Option.map_eq_some'.mp hh
      simp only [Option.some.injEq, Prod.mk.injEq] at hx
      obtain ⟨ho, hr⟩ := hx
      refine Option.map_eq_some'.mpr ⟨(p1, p2 ++ t), ih X p1 p2 t hp, ?_⟩
      rw [← ho, ← hr]
    rcases cs with _ | ⟨c, r⟩
    · rw [parseStrAux_nil] at h
      cases h
    · rw [parseStrAux.eq_def] at h
      rw [show (c :: r) ++ t = c :: (r ++ t) from rfl, parseStrAux.eq_def]
      dsimp only at h ⊢
      by_cases hq : c = '"'
      · rw [if_pos hq] at h ⊢
        simp only [Option.some.injEq, Prod.mk.injEq] at h
        rw [← h.1, ← h.2]
      · rw [if_neg hq] at h ⊢
        by_cases hb : c = '\\'
        · rw [if_pos hb] at h ⊢
          rcases r with _ | ⟨e, r2⟩
          · cases h
          · rw [show (e :: r2) ++ t = e :: (r2 ++ t) from rfl]
            dsimp only at h ⊢
            by_cases hu : e = 'u'
            · rw [if_pos hu] at h ⊢
              rcases r2 with _ | ⟨h1, r2⟩
              · cases h
              rcases r2 with _ | ⟨h2, r2⟩
              · cases h
              rcases r2 with _ | ⟨h3, r2⟩
              · cases h
              rcases r2 with _ | ⟨h4, r3⟩
              · cases h
              rw [show (h1 :: h2 :: h3 :: h4 :: r3) ++ t =
                h1 :: h2 :: h3 :: h4 :: (r3 ++ t) from rfl]
              dsimp only at h ⊢
              rcases hh4 : hex4 h1 h2 h3 h4 with _ | n
              · rw [hh4] at h
                cases h
              · rw [hh4] at h
                dsimp only at h ⊢
                exact hmap _ _ h
            · rw [if_neg hu] at h ⊢
              rcases he : escChar e with _ | ec
              · rw [he] at h
                cases h
              · rw [he] at h
                dsimp only at h ⊢
                exact hmap _ _ h
        · rw [if_neg hb] at h ⊢
          by_cases hc32 : c.toNat < 32
          · rw [if_pos hc32] at h
            cases h
          · rw [if_neg hc32] at h ⊢
            exact hmap _ _ h

/-- Fuel exhaustion aside, a value never parses from empty input. -/
theorem parseVal_nil (f : Nat) : parseVal f [] = none := by
  cases f <;> rfl

/-- Fuel exhaustion aside, members never parse from empty input. -/
theorem parseMembers_nil (f : Nat) : parseMembers f [] = none := by
  cases f <;> rfl

/-- One fuel step of monotonicity for the three mutual parse functions. -/
theorem parse_mono_step : ∀ (f : Nat),
    (∀ cs x, parseVal f cs = some x → parseVal (f + 1) cs = some x) ∧
    (∀ cs x, parseMembers f cs = some x → parseMembers (f + 1) cs = some x) ∧
    (∀ cs x, parseElems f cs = some x → parseElems (f + 1) cs = some x) := by
  intro f
  induction f with
  | zero =>
    refine ⟨?_, ?_, ?_⟩
    · intro cs x h
      rw [parseVal] at h
      cases h
    · intro cs x h
      rw [parseMembers] at h
      cases h
    · intro cs x h
      rw [parseElems] at h
      cases h
  | succ f ih =>
    obtain ⟨ihV, ihM, ihE⟩ := ih
    refine ⟨?_, ?_, ?_⟩
    · intro cs x h
      rw [parseVal.eq_def] at h
      rw [parseVal.eq_def]
      dsimp only at h ⊢
      rcases hsw : skipWs cs with _ | ⟨c, r⟩
      · rw [hsw] at h
        cases h
      · rw [hsw] at h
        dsimp only at h ⊢
        by_cases hc : c = '\x7b'
        · rw [if_pos hc] at h ⊢
          rcases hsw2 : skipWs r with _ | ⟨d, r2⟩
          · rw [hsw2] at h
            cases h
          · rw [hsw2] at h
            dsimp only at h ⊢
            by_cases hd : d = '\x7d'
            · rw [if_pos hd] at h ⊢
              exact h
            · rw [if_neg hd] at h ⊢
              obtain ⟨p, hp, hx⟩ := Option.map_eq_some'.mp h
              exact Option.map_eq_some'.mpr ⟨p, ihM _ p hp, hx⟩
        · rw [if_neg hc] at h ⊢
          by_cases hbr : c = '['
          · rw [if_pos hbr] at h ⊢
            rcases hsw2 : skipWs r with _ | ⟨d, r2⟩
            · rw [hsw2] at h
              cases h
            · rw [hsw2] at h
              dsimp only at h ⊢
              by_cases hd : d = ']'
              · rw [if_pos hd] at h ⊢
                exact h
              · rw [if_neg hd] at h ⊢
                obtain ⟨p, hp, hx⟩ := Option.map_eq_some'.mp h
                exact Option.map_eq_some'.mpr ⟨p, ihE _ p hp, hx⟩
          · rw [if_neg hbr] at h ⊢
            by_cases hq : c = '"'
            · rw [if_pos hq] at h ⊢
              obtain ⟨p, hp, hx⟩ := Option.map_eq_some'.mp h
              exact Option.map_eq_some'.mpr ⟨p, parseStrAux_mono f _ p hp, hx⟩
            · rw [if_neg hq] at h ⊢
              by_cases ht : c = 't'
              · rw [if_pos ht] at h ⊢
                exact h
              · rw [if_neg ht] at h ⊢
                by_cases hf : c = 'f'
                · rw [if_pos hf] at h ⊢
                  exact h
                · rw [if_neg hf] at h ⊢
                  by_cases hn : c = 'n'
                  · rw [if_pos hn] at h ⊢
                    exact h
                  · rw [if_neg hn] at h ⊢
                    by_cases hnum : c = '-' ∨ c.isDigit
                    · rw [if_pos hnum] at h ⊢
                      exact h
                    · rw [if_neg hnum] at h ⊢
                      exact h
    · intro cs x h
      rw [parseMembers.eq_def] at h
      rw [parseMembers.eq_def]
      dsimp only at h ⊢
      rcases cs with _ | ⟨c, r⟩
      · cases h
      · dsimp only at h ⊢
        by_cases hq : c = '"'
        · rw [if_pos hq] at h ⊢
          rcases hps : parseStrAux f r with _ | ⟨key, r1⟩
          · rw [hps] at h
            cases h
          · rw [hps] at h
            rw [parseStrAux_mono f r _ hps]
            dsimp only at h ⊢
            rcases hsw : skipWs r1 with _ | ⟨d, r2⟩
            · rw [hsw] at h
              cases h
            · rw [hsw] at h
              dsimp only at h ⊢
              by_cases hd : d = ':'
              · rw [if_pos hd] at h ⊢
                rcases hpv : parseVal f r2 with _ | ⟨v, r3⟩
                · rw [hpv] at h
                  cases h
                · rw [hpv] at h
                  rw [ihV r2 _ hpv]
                  dsimp only at h ⊢
                  rcases hsw3 : skipWs r3 with _ | ⟨e, r4⟩
                  · rw [hsw3] at h
                    cases h
                  · rw [hsw3] at h
                    dsimp only at h ⊢
                    by_cases he : e = ','
                    · rw [if_pos he] at h ⊢
                      obtain ⟨p, hp, hx⟩ := Option.map_eq_some'.mp h
                      exact Option.map_eq_some'.mpr ⟨p, ihM _ p hp, hx⟩
                    · rw [if_neg he] at h ⊢
                      by_cases he2 : e = '\x7d'
                      · rw [if_pos he2] at h ⊢
                        exact h
                      · rw [if_neg he2] at h
                        cases h
              · rw [if_neg hd] at h
                cases h
        · rw [if_neg hq] at h
          cases h
    · intro cs x h
      rw [parseElems.eq_def] at h
      rw [parseElems.eq_def]
      dsimp only at h ⊢
      rcases hpv : parseVal f cs with _ | ⟨v, r⟩
      · rw [hpv] at h
        cases h
      · rw [hpv] at h
        rw [ihV cs _ hpv]
        dsimp only at h ⊢
        rcases hsw : skipWs r with _ | ⟨c, r2⟩
        · rw [hsw] at h
          cases h
        · rw [hsw] at h
          dsimp only at h ⊢
          by_cases hc : c = ','
          · rw [if_pos hc] at h ⊢
            obtain ⟨p, hp, hx⟩ := Option.map_eq_some'.mp h
            exact Option.map_eq_some'.mpr ⟨p, ihE _ p hp, hx⟩
          · rw [if_neg hc] at h ⊢
            by_cases hc2 : c = ']'
            · rw [if_pos hc2] at h ⊢
              exact h
            · rw [if_neg hc2] at h
              cases h

/-- Full fuel monotonicity for value parsing. -/
theorem parseVal_mono (g : Nat) : ∀ f, f ≤ g → ∀ cs x,
    parseVal f cs = some x → parseVal g cs = some x := by
  induction g with
  | zero =>
    intro f hf cs x h
    have hz : f = 0 := Nat.le_zero.mp hf
    subst hz
    rw [parseVal] at h
    cases h
  | succ g ihg =>
    intro f hf cs x h
    rcases Nat.eq_or_lt_of_le hf with rfl | hlt
    · exact h
    · exact (parse_mono_step g).1 cs x (ihg f (by omega) cs x h)

/-- Appending unread input to a successful parse changes only the returned
remainder: for a value the remainder must be non-empty (the greedy number
token aside, every value is delimiter-closed; a value inside an object or
array is always followed by its separator), while members and elements are
always closed by `}` / `]`. -/
theorem parse_append : ∀ (f : Nat),
    (∀ cs v c0 rem t, parseVal f cs = some (v, c0 :: rem) →
      parseVal f (cs ++ t) = some (v, c0 :: (rem ++ t))) ∧
    (∀ cs kvs rem t, parseMembers f cs = some (kvs, rem) →
      parseMembers f (cs ++ t) = some (kvs, rem ++ t)) ∧
    (∀ cs vs rem t, parseElems f cs = some (vs, rem) →
      parseElems f (cs ++ t) = some (vs, rem ++ t)) := by
  intro f
  induction f with
  | zero =>
    refine ⟨?_, ?_, ?_⟩
    · intro cs v c0 rem t h
      rw [parseVal] at h
      cases h
    · intro cs kvs rem t h
      rw [parseMembers] at h
      cases h
    · intro cs vs rem t h
      rw [parseElems] at h
      cases h
  | succ f ih =>
    obtain ⟨ihV, ihM, ihE⟩ := ih
    refine ⟨?_, ?_, ?_⟩
    · intro cs v c0 rem t h
      rw [parseVal.eq_def] at h
      rw [parseVal.eq_def]
      dsimp only at h ⊢
      rcases hsw : skipWs cs with _ | ⟨c, r⟩
      · rw [hsw] at h
        cases h
      · rw [hsw] at h
        rw [skipWs_append_cons cs t c r hsw]
        dsimp only at h ⊢
        by_cases hc : c = '\x7b'
        · rw [if_pos hc] at h ⊢
          rcases hsw2 : skipWs r with _ | ⟨d, r2⟩
          · rw [hsw2] at h
            cases h
          · rw [hsw2] at h
            rw [skipWs_append_cons r t d r2 hsw2]
            dsimp only at h ⊢
            by_cases hd : d = '\x7d'
            · rw [if_pos hd] at h ⊢
              simp only [Option.some.injEq, Prod.mk.injEq] at h
              obtain ⟨hv, hrem⟩ := h
              rw [hrem, ← hv, List.cons_append]
            · rw [if_neg hd] at h ⊢
              obtain ⟨⟨kvs, prem⟩, hp, hx⟩ := Option.map_eq_some'.mp h
              simp only [Option.some.injEq, Prod.mk.injEq] at hx
              obtain ⟨hv, hrem⟩ := hx
              rw [show d :: (r2 ++ t) = (d :: r2) ++ t from rfl,
                ihM (d :: r2) kvs prem t hp, Option.map_some']
              rw [hrem, ← hv, List.cons_append]
        · rw [if_neg hc] at h ⊢
          by_cases hbr : c = '['
          · rw [if_pos hbr] at h ⊢
            rcases hsw2 : skipWs r with _ | ⟨d, r2⟩
            · rw [hsw2] at h
              cases h
            · rw [hsw2] at h
              rw [skipWs_append_cons r t d r2 hsw2]
              dsimp only at h ⊢
              by_cases hd : d = ']'
              · rw [if_pos hd] at h ⊢
                simp only [Option.some.injEq, Prod.mk.injEq] at h
                obtain ⟨hv, hrem⟩ := h
                rw [hrem, ← hv, List.cons_append]
              · rw [if_neg hd] at h ⊢
                obtain ⟨⟨vs, prem⟩, hp, hx⟩ := Option.map_eq_some'.mp h
                simp only [Option.some.injEq, Prod.mk.injEq] at hx
                obtain ⟨hv, hrem⟩ := hx
                rw [show d :: (r2 ++ t) = (d :: r2) ++ t from rfl,
                  ihE (d :: r2) vs prem t hp, Option.map_some']
                rw [hrem, ← hv, List.cons_append]
          · rw [if_neg hbr] at h ⊢
            by_cases hq : c = '"'
            · rw [if_pos hq] at h ⊢
              obtain ⟨⟨s1, s2⟩, hp, hx⟩ := Option.map_eq_some'.mp h
              simp only [Option.some.injEq, Prod.mk.injEq] at hx
              obtain ⟨hv, hrem⟩ := hx
              rw [parseStrAux_append f r s1 s2 t hp, Option.map_some']
              rw [hrem, ← hv, List.cons_append]
            · rw [if_neg hq] at h ⊢
              by_cases ht : c = 't'
              · rw [if_pos ht] at h ⊢
                obtain ⟨r2, hp, hx⟩ := Option.map_eq_some'.mp h
                simp only [Option.some.injEq, Prod.mk.injEq] at hx
                obtain ⟨hv, hrem⟩ := hx
                rw [expectLit_append _ r r2 t hp, Option.map_some']
                rw [hrem, ← hv, List.cons_append]
              · rw [if_neg ht] at h ⊢
                by_cases hf : c = 'f'
                · rw [if_pos hf] at h ⊢
                  obtain ⟨r2, hp, hx⟩ := Option.map_eq_some'.mp h
                  simp only [Option.some.injEq, Prod.mk.injEq] at hx
                  obtain ⟨hv, hrem⟩ := hx
                  rw [expectLit_append _ r r2 t hp, Option.map_some']
                  rw [hrem, ← hv, List.cons_append]
                · rw [if_neg hf] at h ⊢
                  by_cases hn : c = 'n'
                  · rw [if_pos hn] at h ⊢
                    obtain ⟨r2, hp, hx⟩ := Option.map_eq_some'.mp h
                    simp only [Option.some.injEq, Prod.mk.injEq] at hx
                    obtain ⟨hv, hrem⟩ := hx
                    rw [expectLit_append _ r r2 t hp, Option.map_some']
                    rw [hrem, ← hv, List.cons_append]
                  · rw [if_neg hn] at h ⊢
                    by_cases hnum : c = '-' ∨ c.isDigit
                    · rw [if_pos hnum] at h ⊢
                      exact parseNum_append (c :: r) v c0 rem t h
                    · rw [if_neg hnum] at h
                      cases h
    · intro cs kvs rem t h
      rw [parseMembers.eq_def] at h
      rw [parseMembers.eq_def]
      dsimp only at h ⊢
      rcases cs with _ | ⟨c, r⟩
      · cases h
      · rw [show (c :: r) ++ t = c :: (r ++ t) from rfl]
        dsimp only at h ⊢
        by_cases hq : c = '"'
        · rw [if_pos hq] at h ⊢
          rcases hps : parseStrAux f r with _ | ⟨key, r1⟩
          · rw [hps] at h
            cases h
          · rw [hps] at h
            rw [parseStrAux_append f r key r1 t hps]
            dsimp only at h ⊢
            rcases hsw : skipWs r1 with _ | ⟨d, r2⟩
            · rw [hsw] at h
              cases h
            · rw [hsw] at h
              rw [skipWs_append_cons r1 t d r2 hsw]
              dsimp only at h ⊢
              by_cases hd : d = ':'
              · rw [if_pos hd] at h ⊢
                rcases hpv : parseVal f r2 with _ | ⟨v, r3⟩
                · rw [hpv] at h
                  cases h
                · rw [hpv] at h
                  dsimp only at h
                  rcases hsw3 : skipWs r3 with _ | ⟨e, r4⟩
                  · rw [hsw3] at h
                    cases h
                  · rw [hsw3] at h
                    rcases r3 with _ | ⟨r3h, r3t⟩
                    · rw [show skipWs ([] : List Char) = [] from rfl] at hsw3
                      cases hsw3
                    · rw [ihV r2 v r3h r3t t hpv]
                      dsimp only
                      rw [show r3h :: (r3t ++ t) = (r3h :: r3t) ++ t from rfl,
                        skipWs_append_cons (r3h :: r3t) t e r4 hsw3]
                      dsimp only at h ⊢
                      by_cases he : e = ','
                      · rw [if_pos he] at h ⊢
                        obtain ⟨⟨mk, mr⟩, hp, hx⟩ := Option.map_eq_some'.mp h
                        simp only [Option.some.injEq, Prod.mk.injEq] at hx
                        obtain ⟨hv2, hrem⟩ := hx
                        rcases hsw4 : skipWs r4 with _ | ⟨g, r5⟩
                        · rw [hsw4, parseMembers_nil] at hp
                          cases hp
                        · rw [hsw4] at hp
                          rw [skipWs_append_cons r4 t g r5 hsw4]
                          rw [show g :: (r5 ++ t) = (g :: r5) ++ t from rfl,
                            ihM (g :: r5) mk mr t hp, Option.map_some']
                          rw [hrem, ← hv2]
                      · rw [if_neg he] at h ⊢
                        by_cases he2 : e = '\x7d'
                        · rw [if_pos he2] at h ⊢
                          simp only [Option.some.injEq, Prod.mk.injEq] at h
                          obtain ⟨hv2, hrem⟩ := h
                          rw [hrem, ← hv2]
                        · rw [if_neg he2] at h
                          cases h
              · rw [if_neg hd] at h
                cases h
        · rw [if_neg hq] at h
          cases h
    · intro cs vs rem t h
      rw [parseElems.eq_def] at h
      rw [parseElems.eq_def]
      dsimp only at h ⊢
      rcases hpv : parseVal f cs with _ | ⟨v, r⟩
      · rw [hpv] at h
        cases h
      · rw [hpv] at h
        dsimp only at h
        rcases hsw : skipWs r with _ | ⟨c, r2⟩
        · rw [hsw] at h
          cases h
        · rw [hsw] at h
          rcases r with _ | ⟨rh, rt⟩
          · rw [show skipWs ([] : List Char) = [] from rfl] at hsw
            cases hsw
          · rw [ihV cs v rh rt t hpv]
            dsimp only
            rw [show rh :: (rt ++ t) = (rh :: rt) ++ t from rfl,
              skipWs_append_cons (rh :: rt) t c r2 hsw]
            dsimp only at h ⊢
            by_cases hc : c = ','
            · rw [if_pos hc] at h ⊢
              obtain ⟨⟨evs, er⟩, hp, hx⟩ := Option.map_eq_some'.mp h
              simp only [Option.some.injEq, Prod.mk.injEq] at hx
              obtain ⟨hv2, hrem⟩ := hx
              rw [ihE r2 evs er t hp, Option.map_some']
              rw [hrem, ← hv2]
            · rw [if_neg hc] at h ⊢
              by_cases hc2 : c = ']'
              · rw [if_pos hc2] at h ⊢
                simp only [Option.some.injEq, Prod.mk.injEq] at h
                obtain ⟨hv2, hrem⟩ := h
                rw [hrem, ← hv2]
              · rw [if_neg hc2] at h
                cases h

/-- A value parse that starts at a `{` is an object parse, hence closed by
its `}`: appending unread input never changes it (no non-empty-remainder
proviso needed). -/
theorem parseVal_objRooted_append (f : Nat) (d' t : List Char) (v : Json)
    (rem : List Char) (h : parseVal f ('\x7b' :: d') = some (v, rem)) :
    parseVal f (('\x7b' :: d') ++ t) = some (v, rem ++ t) := by
  cases f with
  | zero => rw [parseVal] at h; cases h
  | succ f =>
    rw [parseVal.eq_def] at h
    rw [parseVal.eq_def]
    dsimp only at h ⊢
    have hsw : skipWs ('\x7b' :: d') = '\x7b' :: d' := rfl
    have hsw2 : skipWs (('\x7b' :: d') ++ t) = '\x7b' :: (d' ++ t) := rfl
    rw [hsw] at h
    rw [hsw2]
    dsimp only at h ⊢
    rw [if_pos rfl] at h ⊢
    rcases hsw3 : skipWs d' with _ | ⟨d, r2⟩
    · rw [hsw3] at h
      cases h
    · rw [hsw3] at h
      rw [skipWs_append_cons d' t d r2 hsw3]
      dsimp only at h ⊢
      by_cases hd : d = '\x7d'
      · rw [if_pos hd] at h ⊢
        simp only [Option.some.injEq, Prod.mk.injEq] at h
        obtain ⟨hv, hrem⟩ := h
        rw [← hv, hrem]
      · rw [if_neg hd] at h ⊢
        obtain ⟨⟨kvs, prem⟩, hp, hx⟩ := Option.map_eq_some'.mp h
        simp only [Option.some.injEq, Prod.mk.injEq] at hx
        obtain ⟨hv, hrem⟩ := hx
        rw [show d :: (r2 ++ t) = (d :: r2) ++ t from rfl,
          (parse_append f).2.1 (d :: r2) kvs prem t hp, Option.map_some']
        rw [hrem, ← hv]

/-- `dec.Decode` never produces `parseFund`'s own `invalid response body`
error. -/
theorem decodeFundInfo_ne_invalid (data : List Char) :
    decodeFundInfo data ≠ .error .invalidResponseBody := by
  rw [decodeFundInfo]
  rcases parseVal (data.length + 1) data with _ | ⟨v, r⟩
  · intro hcon
    cases hcon
  · dsimp only
    rcases jsonToFundInfo v with _ | info
    · intro hcon
      cases hcon
    · intro hcon
      cases hcon

/-- Decoding from a `{` succeeds identically after appending unread
trailing bytes. -/
theorem decodeFundInfo_append (d' t : List Char) (info : FundInfo)
    (h : decodeFundInfo ('\x7b' :: d') = .ok info) :
    decodeFundInfo (('\x7b' :: d') ++ t) = .ok info := by
  rw [decodeFundInfo] at h
  rw [decodeFundInfo]
  rcases hpv : parseVal (('\x7b' :: d').length + 1) ('\x7b' :: d') with _ | ⟨v, r⟩
  · rw [hpv] at h
    cases h
  · rw [hpv] at h
    have h2 := parseVal_objRooted_append _ d' t v r hpv
    have h3 := parseVal_mono ((('\x7b' :: d') ++ t).length + 1) (('\x7b' :: d').length + 1)
      (by simp) _ _ h2
    rw [h3]
    dsimp only at h ⊢
    rcases hj : jsonToFundInfo v with _ | info2
    · rw [hj] at h
      cases h
    · rw [hj] at h
      exact h

/-- The text before the first `{` either has no `{` at all or the suffix
from the first `{` starts with it. -/
theorem dropWhile_brace_shape : ∀ l : List Char,
    l.dropWhile (· ≠ '\x7b') = [] ∨ ∃ r, l.dropWhile (· ≠ '\x7b') = '\x7b' :: r := by
  intro l
  induction l with
  | nil => left; rfl
  | cons c r ih =>
    by_cases hc : c = '\x7b'
    · right
      exact ⟨r, by simp [List.dropWhile_cons, hc]⟩
    · rw [List.dropWhile_cons]
      simp only [hc, ne_eq, not_false_eq_true, decide_true_eq_true, if_pos, decide_not]
      simpa using ih

/-- A body containing a `{` keeps a non-empty suffix from its first `{`. -/
theorem dropWhile_brace_mem {body : List Char} (hmem : '\x7b' ∈ body) :
    ∃ r, body.dropWhile (· ≠ '\x7b') = '\x7b' :: r := by
  rcases dropWhile_brace_shape body with hnil | h
  · exfalso
    have := List.dropWhile_eq_nil_iff.mp hnil _ hmem
    simp at this
  · exact h

/-- C3: `parseFund` fails with its malformed-response error exactly when
the body has no `{`; otherwise it decodes from the first `{`; bytes before
the first `{` never affect the result; and bytes after a successfully
decoded envelope never cause a failure. -/
theorem c3_parseFund_first_brace_decode :
    (∀ body : List Char,
      parseFund body = .error .invalidResponseBody ↔ '\x7b' ∉ body) ∧
    (∀ body : List Char, '\x7b' ∈ body →
      parseFund body = decodeFundInfo (body.dropWhile (· ≠ '\x7b'))) ∧
    (∀ pre body : List Char, '\x7b' ∉ pre →
      parseFund (pre ++ body) = parseFund body) ∧
    (∀ (body t : List Char) (info : FundInfo), parseFund body = .ok info →
      parseFund (body ++ t) = .ok info) := by
  have hnil : ∀ body : List Char, '\x7b' ∉ body →
      body.dropWhile (· ≠ '\x7b') = [] := by
    intro body h
    rw [List.dropWhile_eq_nil_iff]
    intro x hx
    by_cases hx2 : x = '\x7b'
    · exact absurd (hx2 ▸ hx) h
    · simp [hx2]
  have hshape : ∀ body : List Char, '\x7b' ∈ body →
      parseFund body = decodeFundInfo (body.dropWhile (· ≠ '\x7b')) := by
    intro body hmem
    obtain ⟨r, hr⟩ := dropWhile_brace_mem hmem
    rw [parseFund, hr]
  refine ⟨?_, hshape, ?_, ?_⟩
  · intro body
    constructor
    · intro h hmem
      obtain ⟨r, hr⟩ := dropWhile_brace_mem hmem
      rw [hshape body hmem, hr] at h
      exact decodeFundInfo_ne_invalid _ h
    · intro h
      rw [parseFund, hnil body h]
  · intro pre body hpre
    rw [parseFund, parseFund, List.dropWhile_append, hnil pre hpre]
    rfl
  · intro body t info h
    by_cases hmem : '\x7b' ∈ body
    · obtain ⟨r, hr⟩ := dropWhile_brace_mem hmem
      rw [hshape body hmem, hr] at h
      rw [parseFund, dropWhile_append_cons body t '\x7b' r hr]
      exact decodeFundInfo_append r t info h
    · rw [parseFund, hnil body hmem] at h
      cases h

set_option maxRecDepth 1000000 in
/-- C3 witness: a body with no `{` gives the malformed-response error, and
the specification's example body still decodes to the same envelope with
trailing garbage appended. -/
theorem c3_witness :
    parseFund ("no json here").toList = .error .invalidResponseBody ∧
      parseFund (c3Body ++ ("garbage)];").toList) = .ok c3Info :=
  ⟨(c3_parseFund_first_brace_decode.1 ("no json here").toList).mpr (by decide),
    c3_parseFund_first_brace_decode.2.2.2 c3Body (("garbage)];").toList) c3Info
      (by decide)⟩

/-- C6: a parsed envelope with nonzero error code makes `getFund` return
the error carrying the API's code, message, page index and page size, and
perform zero sink writes; nothing in this path retries. -/
theorem c6_nonzero_errcode_no_write (node : FundNode) (body : List Char)
    (info : FundInfo) (hcode : node.Code ≠ "")
    (hparse : parseFund body = .ok info) (herr : info.ErrCode ≠ 0) :
    getFund node (.ok body) =
      .error (.fundInfoErr info.ErrCode info.ErrMsg info.PageIndex info.PageSize) ∧
    ∀ pts, getFund node (.ok body) ≠ .ok pts := by
  have h1 : getFund node (.ok body) =
      .error (.fundInfoErr info.ErrCode info.ErrMsg info.PageIndex info.PageSize) := by
    simp only [getFund, if_neg hcode, hparse, if_pos herr]
  exact ⟨h1, fun pts hpts => by rw [h1] at hpts; cases hpts⟩

set_option maxRecDepth 1000000 in
/-- C6 witness: the concrete nonzero-`ErrCode` envelope is rejected with
the API's code, message and paging context, and no write happens. -/
theorem c6_witness :
    parseFund c6Body = .ok c6Info ∧ c6Info.ErrCode ≠ 0 ∧
      getFund c6Node (.ok c6Body) = .error (.fundInfoErr 183 "boom" 2 20) ∧
      ∀ pts, getFund c6Node (.ok c6Body) ≠ .ok pts := by
  have h := c6_nonzero_errcode_no_write c6Node c6Body c6Info (by decide)
    (by decide) (by decide)
  exact ⟨by decide, by decide, h.1, h.2⟩
